import Mathlib

/-!
# Verification of the fishy-business game server

Shallow embedding of the ocean simulator (`world.go`), the racing session
manager (`racing.go`), the quadtree spatial index (`quadtree.go`) and the
binary wire codec (`protocol.go` encoder, `connection.ts` decoder), together
with proofs and refutations of the specified properties.

Numeric conventions: Go `float64` kinematics are modelled over `ℚ` (the code
uses only ring operations, comparisons and clamps, which are structure-equal
over `ℚ`); the single transcendental operation, `math.Atan2`, is modelled
over `ℝ` via `Complex.arg` and the physics step is parameterised by it so
that the remaining state stays executable.  Machine integers are `ℕ`/`ℤ`
with explicit `% 2^w` where Go truncates.
-/

namespace Fishy

/-! ## Constants (`server/config.go`) -/

def WorldWidth : ℚ := 4000
def WorldHeight : ℚ := 4000
def InitialPlayerSize : ℚ := 20
def MinPlayerSize : ℚ := 10
def MaxPlayerSize : ℚ := 200
def PlayerSpeed : ℚ := 200
def BoostMultiplier : ℚ := 2
def BoostCostPerSec : ℚ := 3
def FoodValue : ℚ := 2
def RespawnDelay : ℚ := 3
def SizeMultiplier : ℚ := 11/10
def VelocityLerp : ℚ := 1/10
def BounceStrength : ℚ := 150

/-- Modelled from the spec: `PowerupDuration` is referenced by `world.go` but
defined in a config file absent from the sources (§6 of the spec gives 5 s).
Its exact value is irrelevant to every property proved below. -/
def PowerupDuration : ℚ := 5

/-! ## Vector math (`server/math.go`) -/

structure Vec2 where
  x : ℚ
  y : ℚ
deriving DecidableEq, Repr

def Vec2.add (v w : Vec2) : Vec2 := ⟨v.x + w.x, v.y + w.y⟩

def Vec2.mul (v : Vec2) (s : ℚ) : Vec2 := ⟨v.x * s, v.y * s⟩

/-- `Vec2.Length` squared.  Go's `v.Length() > c` (with `c ≥ 0`) is translated
as `lengthSq v > c^2`; `lengthSq_gt_iff` below justifies the translation. -/
def Vec2.lengthSq (v : Vec2) : ℚ := v.x * v.x + v.y * v.y

/-- The real length of a vector, `math.Sqrt(x*x + y*y)`. -/
noncomputable def Vec2.length (v : Vec2) : ℝ := Real.sqrt (v.lengthSq : ℝ)

theorem lengthSq_nonneg (v : Vec2) : 0 ≤ v.lengthSq := by
  have hx : 0 ≤ v.x * v.x := mul_self_nonneg _
  have hy : 0 ≤ v.y * v.y := mul_self_nonneg _
  simpa [Vec2.lengthSq] using add_nonneg hx hy

/-- Justifies translating Go's `v.Length() > c` as `v.lengthSq > c^2`. -/
theorem lengthSq_gt_iff (v : Vec2) (c : ℚ) (hc : 0 ≤ c) :
    v.length > (c : ℝ) ↔ v.lengthSq > c ^ 2 := by
  have h0 : (0:ℝ) ≤ (v.lengthSq : ℝ) := by exact_mod_cast lengthSq_nonneg v
  constructor
  · intro h
    have hc' : (0:ℝ) ≤ (c:ℝ) := by exact_mod_cast hc
    have := Real.sq_sqrt h0
    have hlt : ((c:ℝ)) ^ 2 < (Real.sqrt (v.lengthSq : ℝ)) ^ 2 := by
      apply sq_lt_sq' _ h
      have : (0:ℝ) ≤ Real.sqrt (v.lengthSq : ℝ) := Real.sqrt_nonneg _
      linarith
    rw [Real.sq_sqrt h0] at hlt
    exact_mod_cast hlt
  · intro h
    have h' : ((c:ℝ)) ^ 2 < (v.lengthSq : ℝ) := by exact_mod_cast h
    have := Real.sqrt_lt_sqrt (by positivity) h'
    calc (c:ℝ) = Real.sqrt ((c:ℝ) ^ 2) := by
                  rw [Real.sqrt_sq (by exact_mod_cast hc)]
         _ < Real.sqrt (v.lengthSq : ℝ) := this

/-- `Lerp(a, b, t)` from `math.go`. -/
def lerp (a b : Vec2) (t : ℚ) : Vec2 :=
  ⟨a.x + (b.x - a.x) * t, a.y + (b.y - a.y) * t⟩

/-- Go `math.Atan2(y, x)`: the argument of the complex number `x + iy`,
with range `(-π, π]`. -/
noncomputable def atan2 (y x : ℚ) : ℝ := Complex.arg ⟨(x : ℝ), (y : ℝ)⟩

/-! ## Players

The `Player` struct of `entities.go` (bundled in the hitbox-comparison
dossier), extended with the powerup and input fields that `world.go` reads
and writes and `protocol.go` serialises. -/

structure Player where
  id : String
  name : String
  model : String
  position : Vec2
  velocity : Vec2
  rotation : ℝ
  size : ℚ
  score : ℤ
  alive : Bool
  killedBy : String
  respawnTime : ℚ
  inputDirection : Vec2
  inputBoost : Bool
  lastSeq : ℕ
  powerupActive : Bool
  powerupDuration : ℚ
  baseSize : ℚ

/-! ## Ocean simulator (`world.go`, per-player bodies)

The physics step is parameterised by the angle function `at2` standing for
`math.Atan2`, so that everything except the rotation field is executable;
the genuine instantiation is `atan2` above. -/

/-- The body of `UpdatePhysics`'s loop for one player, in source order:
velocity lerp towards the input target, position integration, rotation
update when `|vel| > 0.1` (note: from the pre-clamp velocity), clamping the
position to the world rectangle zeroing the clamped axis' velocity, and
the boost size drain. -/
def updatePhysicsPlayer (at2 : ℚ → ℚ → ℝ) (dt : ℚ) (p : Player) : Player :=
  if p.alive = false then p else
  let target0 := p.inputDirection.mul PlayerSpeed
  let target := if p.inputBoost then target0.mul BoostMultiplier else target0
  let vel := lerp p.velocity target VelocityLerp
  let pos := p.position.add (vel.mul dt)
  let rot := if vel.lengthSq > (1/10)^2 then at2 vel.y vel.x else p.rotation
  let px := if pos.x < 0 then (0:ℚ) else if pos.x > WorldWidth then WorldWidth else pos.x
  let vx := if pos.x < 0 then (0:ℚ) else if pos.x > WorldWidth then 0 else vel.x
  let py := if pos.y < 0 then (0:ℚ) else if pos.y > WorldHeight then WorldHeight else pos.y
  let vy := if pos.y < 0 then (0:ℚ) else if pos.y > WorldHeight then 0 else vel.y
  let vel2 : Vec2 := ⟨vx, vy⟩
  let size :=
    if vel2.lengthSq > (PlayerSpeed * (3/2))^2 ∧ p.size > MinPlayerSize then
      let s := p.size - BoostCostPerSec * dt
      if s < MinPlayerSize then MinPlayerSize else s
    else p.size
  { p with position := ⟨px, py⟩, velocity := vel2, rotation := rot, size := size }

/-- `EatPlayer(eater, eaten)` from `world.go`: returns the updated
`(eater, eaten)` pair. -/
def eatPlayer (eater eaten : Player) : Player × Player :=
  if eaten.alive = false then (eater, eaten)
  else if eaten.powerupActive = true ∧ eaten.model = "blobfish" then (eater, eaten)
  else
    let sz0 := eater.size + eaten.size * (1/2)
    let sz := if sz0 > MaxPlayerSize then MaxPlayerSize else sz0
    ({ eater with size := sz, score := eater.score + eaten.score + 100 },
     { eaten with alive := false, killedBy := eater.name, respawnTime := RespawnDelay })

/-- `EatFood`'s effect on the player (the food-map removal is not part of the
player state). -/
def eatFoodPlayer (p : Player) : Player :=
  let sz0 := p.size + FoodValue
  let sz := if sz0 > MaxPlayerSize then MaxPlayerSize else sz0
  { p with size := sz, score := p.score + 1 }

/-- `CollectPowerup`'s effect on the player (the powerup-map removal is not
part of the player state).  Only the pufferfish branch touches simulation
state; the other species' effects live in hitbox/broadcast code. -/
def collectPowerupPlayer (p : Player) : Player :=
  if p.powerupActive = true then p
  else
    let p1 := { p with powerupActive := true, powerupDuration := PowerupDuration }
    if p1.model = "pufferfish" then
      let sz0 := p1.size * (3/2)
      let sz := if sz0 > MaxPlayerSize then MaxPlayerSize else sz0
      { p1 with baseSize := p1.size, size := sz }
    else p1

/-- The body of `UpdatePowerups`'s loop for one player. -/
def updatePowerupPlayer (dt : ℚ) (p : Player) : Player :=
  if p.powerupActive = true then
    let d := p.powerupDuration - dt
    if d ≤ 0 then
      let p1 := { p with powerupActive := false, powerupDuration := 0 }
      if p1.model = "pufferfish" ∧ p1.baseSize > 0 then
        { p1 with size := p1.baseSize, baseSize := 0 }
      else p1
    else { p with powerupDuration := d }
  else p

/-- `Player.Respawn` (`entities.go`): reset to a random position in the
100-margin interior, zero velocity and rotation, `Size = InitialPlayerSize`,
`Alive = true`, with `RespawnTime` and `KilledBy` cleared.  The random
position is passed as the parameter `rp`. -/
def respawnPlayer (rp : Vec2) (p : Player) : Player :=
  { p with position := rp, velocity := ⟨0, 0⟩, size := InitialPlayerSize,
           rotation := 0, alive := true, respawnTime := 0, killedBy := "" }

/-- The body of `HandleRespawns`'s loop for one player: dead players' timers
tick down by `dt` and the player respawns when the timer reaches zero. -/
def handleRespawnPlayer (dt : ℚ) (rp : Vec2) (p : Player) : Player :=
  if p.alive = true then p
  else
    let t := p.respawnTime - dt
    if t ≤ 0 then respawnPlayer rp { p with respawnTime := t }
    else { p with respawnTime := t }

/-- The body of `ProcessInputs` for one player: the latest queued input for
an alive player overwrites its stored direction, boost flag and sequence. -/
def applyInputPlayer (inp : Option (Vec2 × Bool × ℕ)) (p : Player) : Player :=
  match inp with
  | none => p
  | some (d, b, s) =>
      if p.alive = true then { p with inputDirection := d, inputBoost := b, lastSeq := s }
      else p

/-! ## One ocean tick (`World.Update`)

`DetectCollisions` walks the quadtree and calls `EatPlayer` / `EatFood` /
`CollectPowerup` when the corresponding hitboxes overlap, and applies the
bounce impulse between overlapping bodies.  The geometric trigger is
abstracted into a per-tick event list over which the theorems quantify
universally; the state-dependent guards of the source (the `i ≠ j` self-skip
and the `player.Size >= e.Size*SizeMultiplier` eat threshold of
`DetectCollisions`, and the internal guards of the callees) are kept. -/

inductive TickEvent where
  | eat (i j : ℕ)
  | food (i : ℕ)
  | powerup (i : ℕ)
  | bounce (i j : ℕ) (sep : Vec2)

def applyEvent (w : List Player) (e : TickEvent) : List Player :=
  match e with
  | .eat i j =>
      match w[i]?, w[j]? with
      | some a, some b =>
          if i ≠ j ∧ b.size * SizeMultiplier ≤ a.size then
            let r := eatPlayer a b
            (w.set i r.1).set j r.2
          else w
      | _, _ => w
  | .food i =>
      match w[i]? with
      | some a => w.set i (eatFoodPlayer a)
      | none => w
  | .powerup i =>
      match w[i]? with
      | some a => w.set i (collectPowerupPlayer a)
      | none => w
  | .bounce i j sep =>
      match w[i]?, w[j]? with
      | some a, some b =>
          (w.set i { a with velocity := a.velocity.add (sep.mul (-BounceStrength * (16/1000))) }).set j
            { b with velocity := b.velocity.add (sep.mul (BounceStrength * (16/1000))) }
      | _, _ => w

/-- One tick of `World.Update`, in source order: (1) drain inputs,
(2) physics, (3) quadtree rebuild (no player-visible effect), (4) collision
events, (5) respawns, (6) powerup timers, (7) food/powerup spawning (no
player-visible effect).  Inputs and respawn positions are keyed by player id
as in the source maps. -/
def tick (at2 : ℚ → ℚ → ℝ) (dt : ℚ) (inputs : String → Option (Vec2 × Bool × ℕ))
    (events : List TickEvent) (rp : String → Vec2) (w : List Player) : List Player :=
  let w0 := w.map (fun p => applyInputPlayer (inputs p.id) p)
  let w1 := w0.map (updatePhysicsPlayer at2 dt)
  let w2 := events.foldl applyEvent w1
  let w3 := w2.map (fun p => handleRespawnPlayer dt (rp p.id) p)
  w3.map (updatePowerupPlayer dt)

/-! ## C2: player-eats-player resolution -/

/-- **C2.** `EatPlayer`: for a victim that is alive and not an
invulnerable blobfish, the eater's size becomes
`min(MaxPlayerSize, eater.size + victim.size·0.5)`, its score grows by
`victim.score + 100`, and the victim ends dead with `killedBy` the eater's
name and respawn timer `RespawnDelay`; for a blobfish victim with an active
powerup the operation is skipped and neither player changes. -/
theorem C2_eatPlayer_resolution (a b : Player) :
    (b.alive = true → ¬(b.powerupActive = true ∧ b.model = "blobfish") →
      (eatPlayer a b).1.size = min MaxPlayerSize (a.size + b.size * (1/2)) ∧
      (eatPlayer a b).1.score = a.score + b.score + 100 ∧
      (eatPlayer a b).2.alive = false ∧
      (eatPlayer a b).2.killedBy = a.name ∧
      (eatPlayer a b).2.respawnTime = RespawnDelay) ∧
    (b.powerupActive = true ∧ b.model = "blobfish" → eatPlayer a b = (a, b)) := by
  constructor
  · intro halive hnb
    have hguard : ¬ (b.alive = false) := by simp [halive]
    have hmin : (if MaxPlayerSize < a.size + b.size * (1/2) then MaxPlayerSize
        else a.size + b.size * (1/2)) = min MaxPlayerSize (a.size + b.size * (1/2)) := by
      rcases lt_or_ge MaxPlayerSize (a.size + b.size * (1/2)) with h | h
      · rw [if_pos h, min_eq_left h.le]
      · rw [if_neg (not_lt.mpr h), min_eq_right h]
    simp only [eatPlayer, if_neg hguard, if_neg hnb, gt_iff_lt]
    refine ⟨hmin, ?_, ?_, ?_, ?_⟩ <;> simp
  · intro hinv
    by_cases halive : b.alive = false
    · simp [eatPlayer, halive]
    · simp [eatPlayer, halive, hinv]

/-- Witness for C2 at a concrete pair of players. -/
theorem C2_eatPlayer_resolution_witness :
    (let a : Player := ⟨"a", "A", "swordfish", ⟨0,0⟩, ⟨0,0⟩, 0, 30, 5, true, "", 0,
      ⟨0,0⟩, false, 0, false, 0, 0⟩
     let b : Player := ⟨"b", "B", "shark", ⟨1,1⟩, ⟨0,0⟩, 0, 25, 7, true, "", 0,
      ⟨0,0⟩, false, 0, false, 0, 0⟩
     (eatPlayer a b).1.size = min MaxPlayerSize (30 + 25 * (1/2)) ∧
     (eatPlayer a b).1.score = 5 + (7 + 100) ∧
     (eatPlayer a b).2.alive = false ∧
     (eatPlayer a b).2.killedBy = "A" ∧
     (eatPlayer a b).2.respawnTime = RespawnDelay) :=
  (C2_eatPlayer_resolution _ _).1 rfl (by simp)

/-! ## C1: rotation update in `UpdatePhysics` -/

/-- **C1 (amended).** For an alive player, `UpdatePhysics` sets the rotation
to `atan2(vel.y, vel.x)` — with no `+π` offset — whenever the post-lerp
velocity magnitude exceeds 0.1, and leaves the rotation unchanged otherwise
(the `+π` sprite-orientation offset is applied by the client renderer, not by
the server). -/
theorem C1_rotation_update (at2 : ℚ → ℚ → ℝ) (dt : ℚ) (p : Player)
    (halive : p.alive = true) :
    (updatePhysicsPlayer at2 dt p).rotation =
      (let target0 := p.inputDirection.mul PlayerSpeed
       let target := if p.inputBoost then target0.mul BoostMultiplier else target0
       let vel := lerp p.velocity target VelocityLerp
       if vel.lengthSq > (1/10)^2 then at2 vel.y vel.x else p.rotation) := by
  simp only [updatePhysicsPlayer, halive, Bool.true_eq_false, if_false]

/-- A concrete alive player swimming straight up at speed 200. -/
noncomputable def pC1 : Player :=
  { id := "p", name := "P", model := "swordfish", position := ⟨100, 100⟩,
    velocity := ⟨0, 200⟩, rotation := 0, size := 20, score := 0, alive := true,
    killedBy := "", respawnTime := 0, inputDirection := ⟨0, 1⟩,
    inputBoost := false, lastSeq := 0, powerupActive := false,
    powerupDuration := 0, baseSize := 0 }

/-- Witness for C1 at the concrete player `pC1`. -/
theorem C1_rotation_update_witness :
    (updatePhysicsPlayer atan2 (1/30) pC1).rotation =
      (let target0 := pC1.inputDirection.mul PlayerSpeed
       let target := if pC1.inputBoost then target0.mul BoostMultiplier else target0
       let vel := lerp pC1.velocity target VelocityLerp
       if vel.lengthSq > (1/10)^2 then atan2 vel.y vel.x else pC1.rotation) :=
  C1_rotation_update atan2 (1/30) pC1 rfl

/-- **C1 (counterexample).** The claim states that the new rotation is
`atan2(vel.y, vel.x) + π`; for the player `pC1` (post-lerp velocity
`(0, 200)`, magnitude 200 > 0.1) the code stores `atan2(200, 0)` and not
`atan2(200, 0) + π`. -/
theorem C1_counterexample :
    (updatePhysicsPlayer atan2 (1/30) pC1).rotation ≠ atan2 200 0 + Real.pi := by
  have h1 : (updatePhysicsPlayer atan2 (1/30) pC1).rotation = atan2 200 0 := by
    simp only [updatePhysicsPlayer, pC1, lerp, Vec2.mul, Vec2.lengthSq, PlayerSpeed,
      BoostMultiplier, VelocityLerp]
    norm_num
  rw [h1]
  intro h
  exact Real.pi_ne_zero (self_eq_add_right.mp h)

/-! ## C5: world-bounds and size-bounds invariant -/

/-- Size bounds, together with the auxiliary bound on the saved pufferfish
base size that makes the invariant inductive. -/
def sizeOK (p : Player) : Prop :=
  MinPlayerSize ≤ p.size ∧ p.size ≤ MaxPlayerSize ∧
  (0 < p.baseSize → MinPlayerSize ≤ p.baseSize ∧ p.baseSize ≤ MaxPlayerSize)

def posOK (p : Player) : Prop :=
  0 ≤ p.position.x ∧ p.position.x ≤ WorldWidth ∧
  0 ≤ p.position.y ∧ p.position.y ≤ WorldHeight

/-- Spec §4.4(5): respawn positions are random interior positions with
margin 100. -/
def interiorPos (v : Vec2) : Prop :=
  100 ≤ v.x ∧ v.x ≤ WorldWidth - 100 ∧ 100 ≤ v.y ∧ v.y ≤ WorldHeight - 100

def playerOK (p : Player) : Prop := sizeOK p ∧ (p.alive = true → posOK p)

theorem applyInput_playerOK (inp : Option (Vec2 × Bool × ℕ)) (p : Player)
    (h : playerOK p) : playerOK (applyInputPlayer inp p) := by
  cases inp with
  | none => exact h
  | some i =>
      obtain ⟨d, b, s⟩ := i
      by_cases ha : p.alive = true
      · simpa [applyInputPlayer, ha, playerOK, sizeOK, posOK] using h
      · simpa [applyInputPlayer, ha] using h

/-- Bounds of the `world.go` clamp pattern
`if v < lo { v = lo } else if v > hi { v = hi }`. -/
theorem clamp_bounds (lo hi v : ℚ) (hlh : lo ≤ hi) :
    lo ≤ (if v < lo then lo else if v > hi then hi else v) ∧
    (if v < lo then lo else if v > hi then hi else v) ≤ hi := by
  constructor <;> split
  · exact le_rfl
  · next h1 =>
      split
      · exact hlh
      · exact not_lt.mp h1
  · exact hlh
  · split
    · exact le_rfl
    · next h2 => exact le_of_not_lt h2

/-- Bounds of the boost-drain pattern of `UpdatePhysics`. -/
theorem drain_bounds (lo hi s cost : ℚ) (h1 : lo ≤ s) (h2 : s ≤ hi)
    (hc : 0 ≤ cost) (C : Prop) [Decidable C] :
    lo ≤ (if C then (if s - cost < lo then lo else s - cost) else s) ∧
    (if C then (if s - cost < lo then lo else s - cost) else s) ≤ hi := by
  constructor <;> split
  · split
    · exact le_rfl
    · next h => exact not_lt.mp h
  · exact h1
  · split
    · exact h1.trans h2
    · linarith
  · exact h2

theorem updatePhysics_playerOK (at2 : ℚ → ℚ → ℝ) (dt : ℚ) (p : Player)
    (hdt : 0 ≤ dt) (h : sizeOK p) :
    playerOK (updatePhysicsPlayer at2 dt p) ∧
    (updatePhysicsPlayer at2 dt p).alive = p.alive := by
  obtain ⟨h1, h2, h3⟩ := h
  by_cases ha : p.alive = false
  · rw [updatePhysicsPlayer, if_pos ha]
    refine ⟨⟨⟨h1, h2, h3⟩, fun hal => ?_⟩, rfl⟩
    rw [ha] at hal
    exact absurd hal (by simp)
  · have hcost : 0 ≤ BoostCostPerSec * dt := by
      have hb : (0:ℚ) ≤ BoostCostPerSec := by norm_num [BoostCostPerSec]
      positivity
    have hmm : MinPlayerSize ≤ MaxPlayerSize := by
      norm_num [MinPlayerSize, MaxPlayerSize]
    have hW : (0:ℚ) ≤ WorldWidth := by norm_num [WorldWidth]
    have hH : (0:ℚ) ≤ WorldHeight := by norm_num [WorldHeight]
    rw [updatePhysicsPlayer, if_neg ha]
    dsimp only
    refine ⟨⟨⟨?_, ?_, h3⟩, fun _ => ⟨?_, ?_, ?_, ?_⟩⟩, rfl⟩
    · exact (drain_bounds MinPlayerSize MaxPlayerSize p.size (BoostCostPerSec * dt)
        h1 h2 hcost _).1
    · exact (drain_bounds MinPlayerSize MaxPlayerSize p.size (BoostCostPerSec * dt)
        h1 h2 hcost _).2
    · exact (clamp_bounds 0 WorldWidth _ hW).1
    · exact (clamp_bounds 0 WorldWidth _ hW).2
    · exact (clamp_bounds 0 WorldHeight _ hH).1
    · exact (clamp_bounds 0 WorldHeight _ hH).2

/-- Bounds of the grow-and-cap pattern `size += Δ; if size > Max { size = Max }`. -/
theorem grow_bounds (lo hi s d : ℚ) (hlh : lo ≤ hi) (h1 : lo ≤ s) (hd : 0 ≤ d) :
    lo ≤ (if s + d > hi then hi else s + d) ∧
    (if s + d > hi then hi else s + d) ≤ hi := by
  constructor <;> split
  · exact hlh
  · linarith
  · exact le_rfl
  · next hle => exact not_lt.mp hle

theorem eatPlayer_playerOK (a b : Player) (hA : playerOK a) (hB : playerOK b) :
    playerOK (eatPlayer a b).1 ∧ playerOK (eatPlayer a b).2 := by
  obtain ⟨⟨ha1, ha2, ha3⟩, haP⟩ := hA
  obtain ⟨⟨hb1, hb2, hb3⟩, hbP⟩ := hB
  rw [eatPlayer]
  split
  · exact ⟨⟨⟨ha1, ha2, ha3⟩, haP⟩, ⟨⟨hb1, hb2, hb3⟩, hbP⟩⟩
  · split
    · exact ⟨⟨⟨ha1, ha2, ha3⟩, haP⟩, ⟨⟨hb1, hb2, hb3⟩, hbP⟩⟩
    · have hd : 0 ≤ b.size * (1/2) := by
        have : (0:ℚ) ≤ b.size := le_trans (by norm_num [MinPlayerSize]) hb1
        positivity
      have hlh : MinPlayerSize ≤ MaxPlayerSize := by
        norm_num [MinPlayerSize, MaxPlayerSize]
      refine ⟨⟨⟨?_, ?_, ha3⟩, haP⟩, ⟨⟨hb1, hb2, hb3⟩, by simp⟩⟩
      · exact (grow_bounds MinPlayerSize MaxPlayerSize a.size (b.size * (1/2)) hlh ha1 hd).1
      · exact (grow_bounds MinPlayerSize MaxPlayerSize a.size (b.size * (1/2)) hlh ha1 hd).2

theorem eatFood_playerOK (p : Player) (h : playerOK p) :
    playerOK (eatFoodPlayer p) := by
  obtain ⟨⟨h1, h2, h3⟩, hP⟩ := h
  rw [eatFoodPlayer]
  have hd : (0:ℚ) ≤ FoodValue := by norm_num [FoodValue]
  have hlh : MinPlayerSize ≤ MaxPlayerSize := by
    norm_num [MinPlayerSize, MaxPlayerSize]
  exact ⟨⟨(grow_bounds MinPlayerSize MaxPlayerSize p.size FoodValue hlh h1 hd).1,
    (grow_bounds MinPlayerSize MaxPlayerSize p.size FoodValue hlh h1 hd).2, h3⟩, hP⟩

theorem collectPowerup_playerOK (p : Player) (h : playerOK p) :
    playerOK (collectPowerupPlayer p) := by
  obtain ⟨⟨h1, h2, h3⟩, hP⟩ := h
  rw [collectPowerupPlayer]
  split
  · exact ⟨⟨h1, h2, h3⟩, hP⟩
  · dsimp only
    split
    · -- pufferfish: size ← min(size·1.5, Max), baseSize ← size
      have hgrow : MinPlayerSize ≤ (if p.size * (3/2) > MaxPlayerSize then MaxPlayerSize
          else p.size * (3/2)) ∧
          (if p.size * (3/2) > MaxPlayerSize then MaxPlayerSize else p.size * (3/2))
            ≤ MaxPlayerSize := by
        have h0 : (0:ℚ) ≤ p.size :=
          le_trans (by norm_num [MinPlayerSize]) h1
        constructor <;> split
        · norm_num [MinPlayerSize, MaxPlayerSize]
        · linarith
        · exact le_rfl
        · next hle => exact not_lt.mp hle
      exact ⟨⟨hgrow.1, hgrow.2, fun _ => ⟨h1, h2⟩⟩, hP⟩
    · exact ⟨⟨h1, h2, h3⟩, hP⟩

theorem updatePowerup_playerOK (dt : ℚ) (p : Player) (h : playerOK p) :
    playerOK (updatePowerupPlayer dt p) := by
  obtain ⟨⟨h1, h2, h3⟩, hP⟩ := h
  rw [updatePowerupPlayer]
  split
  · dsimp only
    split
    · split
      · next hpb => exact ⟨⟨(h3 hpb.2).1, (h3 hpb.2).2, by norm_num⟩, hP⟩
      · exact ⟨⟨h1, h2, h3⟩, hP⟩
    · exact ⟨⟨h1, h2, h3⟩, hP⟩
  · exact ⟨⟨h1, h2, h3⟩, hP⟩

theorem respawn_playerOK (dt : ℚ) (rp : Vec2) (p : Player)
    (hrp : interiorPos rp) (h : playerOK p) :
    playerOK (handleRespawnPlayer dt rp p) := by
  obtain ⟨⟨h1, h2, h3⟩, hP⟩ := h
  obtain ⟨hr1, hr2, hr3, hr4⟩ := hrp
  rw [handleRespawnPlayer]
  split
  · exact ⟨⟨h1, h2, h3⟩, hP⟩
  · next hna =>
    dsimp only
    split
    · refine ⟨⟨by norm_num [respawnPlayer, InitialPlayerSize, MinPlayerSize],
        by norm_num [respawnPlayer, InitialPlayerSize, MaxPlayerSize], h3⟩, fun _ => ?_⟩
      refine ⟨?_, ?_, ?_, ?_⟩ <;> dsimp only [respawnPlayer, posOK]
      · linarith
      · have : WorldWidth - 100 ≤ WorldWidth := by norm_num [WorldWidth]
        linarith
      · linarith
      · have : WorldHeight - 100 ≤ WorldHeight := by norm_num [WorldHeight]
        linarith
    · exact ⟨⟨h1, h2, h3⟩, fun hal => absurd hal hna⟩

theorem mem_of_getElem? {α : Type} {l : List α} {n : ℕ} {a : α}
    (h : l[n]? = some a) : a ∈ l := by
  obtain ⟨hn, rfl⟩ := List.getElem?_eq_some.mp h
  exact List.getElem_mem hn

theorem applyEvent_allOK (w : List Player) (e : TickEvent)
    (h : ∀ p ∈ w, playerOK p) : ∀ p ∈ applyEvent w e, playerOK p := by
  intro p hp
  cases e with
  | eat i j =>
      rw [applyEvent] at hp
      rcases hij : w[i]? with _ | a <;> rw [hij] at hp
      · exact h p hp
      rcases hj : w[j]? with _ | b <;> rw [hj] at hp
      · exact h p hp
      dsimp only at hp
      split at hp
      · have hok := eatPlayer_playerOK a b (h a (mem_of_getElem? hij))
          (h b (mem_of_getElem? hj))
        rcases List.mem_or_eq_of_mem_set hp with hp1 | rfl
        · rcases List.mem_or_eq_of_mem_set hp1 with hp2 | rfl
          · exact h p hp2
          · exact hok.1
        · exact hok.2
      · exact h p hp
  | food i =>
      rw [applyEvent] at hp
      rcases hij : w[i]? with _ | a <;> rw [hij] at hp
      · exact h p hp
      rcases List.mem_or_eq_of_mem_set hp with hp1 | rfl
      · exact h p hp1
      · exact eatFood_playerOK a (h a (mem_of_getElem? hij))
  | powerup i =>
      rw [applyEvent] at hp
      rcases hij : w[i]? with _ | a <;> rw [hij] at hp
      · exact h p hp
      rcases List.mem_or_eq_of_mem_set hp with hp1 | rfl
      · exact h p hp1
      · exact collectPowerup_playerOK a (h a (mem_of_getElem? hij))
  | bounce i j sep =>
      rw [applyEvent] at hp
      rcases hij : w[i]? with _ | a <;> rw [hij] at hp
      · exact h p hp
      rcases hj : w[j]? with _ | b <;> rw [hj] at hp
      · exact h p hp
      have hOKa := h a (mem_of_getElem? hij)
      have hOKb := h b (mem_of_getElem? hj)
      rcases List.mem_or_eq_of_mem_set hp with hp1 | rfl
      · rcases List.mem_or_eq_of_mem_set hp1 with hp2 | rfl
        · exact h p hp2
        · exact ⟨hOKa.1, hOKa.2⟩
      · exact ⟨hOKb.1, hOKb.2⟩

theorem foldl_applyEvent_allOK (events : List TickEvent) (w : List Player)
    (h : ∀ p ∈ w, playerOK p) :
    ∀ p ∈ events.foldl applyEvent w, playerOK p := by
  induction events generalizing w with
  | nil => exact h
  | cons e es ih => exact ih (applyEvent w e) (applyEvent_allOK w e h)

/-- **C5.** At the end of a tick — for any inputs, any sequence of eating,
food, powerup and bounce events, any boost state, and any interior respawn
positions — every alive player has its position inside the world rectangle
and its size within `[MinPlayerSize, MaxPlayerSize]`; the size invariant
`sizeOK` is itself re-established, so by induction the bounds hold at the
end of every tick of any run. -/
theorem C5_tick_bounds (at2 : ℚ → ℚ → ℝ) (dt : ℚ)
    (inputs : String → Option (Vec2 × Bool × ℕ)) (events : List TickEvent)
    (rp : String → Vec2) (w : List Player)
    (hdt : 0 ≤ dt) (hrp : ∀ s, interiorPos (rp s))
    (hw : ∀ p ∈ w, sizeOK p) :
    ∀ p ∈ tick at2 dt inputs events rp w,
      (p.alive = true →
        0 ≤ p.position.x ∧ p.position.x ≤ WorldWidth ∧
        0 ≤ p.position.y ∧ p.position.y ≤ WorldHeight) ∧
      sizeOK p := by
  have h1 : ∀ p ∈ (w.map (fun p => applyInputPlayer (inputs p.id) p)).map
      (updatePhysicsPlayer at2 dt), playerOK p := by
    intro p hp
    obtain ⟨q, hq, rfl⟩ := List.mem_map.mp hp
    obtain ⟨q0, hq0, rfl⟩ := List.mem_map.mp hq
    have hs : sizeOK (applyInputPlayer (inputs q0.id) q0) := by
      have := hw q0 hq0
      cases hin : inputs q0.id with
      | none => simpa [applyInputPlayer] using this
      | some i =>
          obtain ⟨d, b, s⟩ := i
          by_cases hal : q0.alive = true
          · simpa [applyInputPlayer, hal, sizeOK] using this
          · simpa [applyInputPlayer, hal] using this
    exact (updatePhysics_playerOK at2 dt _ hdt hs).1
  have h2 := foldl_applyEvent_allOK events _ h1
  intro p hp
  rw [tick] at hp
  obtain ⟨q, hq, rfl⟩ := List.mem_map.mp hp
  obtain ⟨q0, hq0, rfl⟩ := List.mem_map.mp hq
  have h3 : playerOK (handleRespawnPlayer dt (rp q0.id) q0) :=
    respawn_playerOK dt (rp q0.id) q0 (hrp q0.id) (h2 q0 hq0)
  have h4 : playerOK (updatePowerupPlayer dt (handleRespawnPlayer dt (rp q0.id) q0)) :=
    updatePowerup_playerOK dt _ h3
  exact ⟨fun hal => h4.2 hal, h4.1⟩

/-- Witness for C5: a two-player world with one eat event, a boost input and
an expiring pufferfish powerup. -/
theorem C5_tick_bounds_witness :
    (0:ℚ) ≤ 1/30 ∧ (∀ s : String, interiorPos ((fun _ => (⟨200, 200⟩ : Vec2)) s)) ∧
    (∀ p ∈ [
      ({ id := "a", name := "A", model := "pufferfish", position := ⟨3999, 1⟩,
         velocity := ⟨300, 0⟩, rotation := 0, size := 30, score := 5, alive := true,
         killedBy := "", respawnTime := 0, inputDirection := ⟨1, 0⟩,
         inputBoost := true, lastSeq := 3, powerupActive := true,
         powerupDuration := 1/100, baseSize := 20 } : Player),
      ({ id := "b", name := "B", model := "shark", position := ⟨50, 50⟩,
         velocity := ⟨0, 0⟩, rotation := 0, size := 12, score := 0, alive := true,
         killedBy := "", respawnTime := 0, inputDirection := ⟨0, 0⟩,
         inputBoost := false, lastSeq := 0, powerupActive := false,
         powerupDuration := 0, baseSize := 0 } : Player)], sizeOK p) ∧
    ∀ p ∈ tick (fun _ _ => (0:ℝ)) (1/30) (fun _ => some (⟨1, 0⟩, true, 7))
        [TickEvent.eat 0 1, TickEvent.food 0] (fun _ => ⟨200, 200⟩)
        [{ id := "a", name := "A", model := "pufferfish", position := ⟨3999, 1⟩,
           velocity := ⟨300, 0⟩, rotation := 0, size := 30, score := 5, alive := true,
           killedBy := "", respawnTime := 0, inputDirection := ⟨1, 0⟩,
           inputBoost := true, lastSeq := 3, powerupActive := true,
           powerupDuration := 1/100, baseSize := 20 },
         { id := "b", name := "B", model := "shark", position := ⟨50, 50⟩,
           velocity := ⟨0, 0⟩, rotation := 0, size := 12, score := 0, alive := true,
           killedBy := "", respawnTime := 0, inputDirection := ⟨0, 0⟩,
           inputBoost := false, lastSeq := 0, powerupActive := false,
           powerupDuration := 0, baseSize := 0 }],
      (p.alive = true →
        0 ≤ p.position.x ∧ p.position.x ≤ WorldWidth ∧
        0 ≤ p.position.y ∧ p.position.y ≤ WorldHeight) ∧
      sizeOK p :=
  ⟨by norm_num,
   fun _ => by norm_num [interiorPos, WorldWidth, WorldHeight],
   by intro p hp; fin_cases hp <;>
     norm_num [sizeOK, MinPlayerSize, MaxPlayerSize],
   C5_tick_bounds _ _ _ _ _ _ (by norm_num)
     (fun _ => by norm_num [interiorPos, WorldWidth, WorldHeight])
     (by intro p hp; fin_cases hp <;>
       norm_num [sizeOK, MinPlayerSize, MaxPlayerSize])⟩

/-! ## C3: per-eat invariants within a tick -/

theorem eatPlayer_skip_dead (a b : Player) (h : b.alive = false) :
    eatPlayer a b = (a, b) := by
  rw [eatPlayer, if_pos h]

theorem eatPlayer_fst_frame (a b : Player) :
    (eatPlayer a b).1.alive = a.alive ∧
    (eatPlayer a b).1.respawnTime = a.respawnTime := by
  rw [eatPlayer]
  split
  · exact ⟨rfl, rfl⟩
  · split
    · exact ⟨rfl, rfl⟩
    · exact ⟨rfl, rfl⟩

theorem collectPowerup_frame (p : Player) :
    (collectPowerupPlayer p).alive = p.alive ∧
    (collectPowerupPlayer p).respawnTime = p.respawnTime := by
  rw [collectPowerupPlayer]
  split
  · exact ⟨rfl, rfl⟩
  · dsimp only
    split
    · exact ⟨rfl, rfl⟩
    · exact ⟨rfl, rfl⟩

theorem updatePowerup_frame (dt : ℚ) (p : Player) :
    (updatePowerupPlayer dt p).alive = p.alive ∧
    (updatePowerupPlayer dt p).respawnTime = p.respawnTime := by
  rw [updatePowerupPlayer]
  split
  · dsimp only
    split
    · split
      · exact ⟨rfl, rfl⟩
      · exact ⟨rfl, rfl⟩
    · exact ⟨rfl, rfl⟩
  · exact ⟨rfl, rfl⟩

/-- A dead player's `alive` flag and respawn timer are untouched by every
collision event of the tick. -/
theorem applyEvent_dead_fixed (w : List Player) (e : TickEvent) (j : ℕ)
    (q : Player) (hq : w[j]? = some q) (hd : q.alive = false) :
    ∃ q', (applyEvent w e)[j]? = some q' ∧ q'.alive = false ∧
      q'.respawnTime = q.respawnTime := by
  have hjlen : j < w.length := (List.getElem?_eq_some.mp hq).1
  cases e with
  | eat i k =>
      rw [applyEvent]
      rcases hi : w[i]? with _ | a
      · exact ⟨q, hq, hd, rfl⟩
      rcases hk : w[k]? with _ | b
      · exact ⟨q, hq, hd, rfl⟩
      dsimp only
      split
      · by_cases hkj : k = j
        · subst hkj
          have hbq : b = q := by rw [hq] at hk; exact (Option.some.inj hk).symm
          subst hbq
          have hlen2 : k < (w.set i (eatPlayer a b).1).length := by
            simpa using hjlen
          refine ⟨(eatPlayer a b).2, List.getElem?_set_eq_of_lt _ hlen2, ?_, ?_⟩
          · rw [eatPlayer_skip_dead a b hd]; exact hd
          · rw [eatPlayer_skip_dead a b hd]
        · rw [List.getElem?_set_ne (fun h => hkj h)]
          by_cases hij : i = j
          · subst hij
            have haq : a = q := by rw [hq] at hi; exact (Option.some.inj hi).symm
            subst haq
            refine ⟨(eatPlayer a b).1, List.getElem?_set_eq_of_lt _ hjlen, ?_, ?_⟩
            · rw [(eatPlayer_fst_frame a b).1]; exact hd
            · exact (eatPlayer_fst_frame a b).2
          · rw [List.getElem?_set_ne (fun h => hij h), hq]
            exact ⟨q, rfl, hd, rfl⟩
      · exact ⟨q, hq, hd, rfl⟩
  | food i =>
      rw [applyEvent]
      rcases hi : w[i]? with _ | a
      · exact ⟨q, hq, hd, rfl⟩
      by_cases hij : i = j
      · subst hij
        have haq : a = q := by rw [hq] at hi; exact (Option.some.inj hi).symm
        subst haq
        exact ⟨eatFoodPlayer a, List.getElem?_set_eq_of_lt _ hjlen, hd, rfl⟩
      · rw [List.getElem?_set_ne (fun h => hij h), hq]
        exact ⟨q, rfl, hd, rfl⟩
  | powerup i =>
      rw [applyEvent]
      rcases hi : w[i]? with _ | a
      · exact ⟨q, hq, hd, rfl⟩
      by_cases hij : i = j
      · subst hij
        have haq : a = q := by rw [hq] at hi; exact (Option.some.inj hi).symm
        subst haq
        refine ⟨collectPowerupPlayer a, List.getElem?_set_eq_of_lt _ hjlen, ?_, ?_⟩
        · rw [(collectPowerup_frame a).1]; exact hd
        · exact (collectPowerup_frame a).2
      · rw [List.getElem?_set_ne (fun h => hij h), hq]
        exact ⟨q, rfl, hd, rfl⟩
  | bounce i k sep =>
      rw [applyEvent]
      rcases hi : w[i]? with _ | a
      · exact ⟨q, hq, hd, rfl⟩
      rcases hk : w[k]? with _ | b
      · exact ⟨q, hq, hd, rfl⟩
      by_cases hkj : k = j
      · subst hkj
        have hbq : b = q := by rw [hq] at hk; exact (Option.some.inj hk).symm
        subst hbq
        exact ⟨_, List.getElem?_set_eq_of_lt _ (by simpa using hjlen), hd, rfl⟩
      · rw [List.getElem?_set_ne (fun h => hkj h)]
        by_cases hij : i = j
        · subst hij
          have haq : a = q := by rw [hq] at hi; exact (Option.some.inj hi).symm
          subst haq
          exact ⟨_, List.getElem?_set_eq_of_lt _ hjlen, hd, rfl⟩
        · rw [List.getElem?_set_ne (fun h => hij h), hq]
          exact ⟨q, rfl, hd, rfl⟩

theorem foldl_dead_fixed (evs : List TickEvent) (w : List Player) (j : ℕ)
    (q : Player) (hq : w[j]? = some q) (hd : q.alive = false) :
    ∃ q', (evs.foldl applyEvent w)[j]? = some q' ∧ q'.alive = false ∧
      q'.respawnTime = q.respawnTime := by
  induction evs generalizing w q with
  | nil => exact ⟨q, hq, hd, rfl⟩
  | cons e es ih =>
      obtain ⟨q', hq', hd', ht'⟩ := applyEvent_dead_fixed w e j q hq hd
      obtain ⟨q'', hq'', hd'', ht''⟩ := ih (applyEvent w e) q' hq' hd'
      exact ⟨q'', hq'', hd'', ht''.trans ht'⟩

theorem eatPlayer_fires (a b : Player) (hal : b.alive = true)
    (hninv : ¬(b.powerupActive = true ∧ b.model = "blobfish")) :
    (eatPlayer a b).2 =
      { b with alive := false, killedBy := a.name, respawnTime := RespawnDelay } := by
  rw [eatPlayer, if_neg (by simp [hal]), if_neg hninv]

theorem eatPlayer_fired_size_le (a b : Player) (hal : b.alive = true)
    (hninv : ¬(b.powerupActive = true ∧ b.model = "blobfish")) :
    (eatPlayer a b).1.size ≤ MaxPlayerSize := by
  rw [eatPlayer, if_neg (by simp [hal]), if_neg hninv]
  dsimp only
  split
  · exact le_rfl
  · next h => exact not_lt.mp h

/-- **C3 (amended).** If, at some point of tick `T`'s collision pass, player
`A` (index `i`) eats player `B` (index `j`), then at that moment
`B.size ≤ A.size · SizeMultiplier⁻¹` held (the claim inverts this
inequality), immediately after the update `A.size ≤ MaxPlayerSize` holds, and
at the end of `T` player `B` is dead with respawn timer
`RespawnDelay − dt` (the claim says `RespawnDelay`, but `HandleRespawns`
already decrements the fresh timer in step 5 of the same tick). -/
theorem C3_eat_invariants (at2 : ℚ → ℚ → ℝ) (dt : ℚ)
    (inputs : String → Option (Vec2 × Bool × ℕ)) (rp : String → Vec2)
    (w : List Player) (evs1 evs2 : List TickEvent) (i j : ℕ) (a b : Player)
    (hdt0 : 0 < dt) (hdtR : dt < RespawnDelay)
    (hi : (evs1.foldl applyEvent
      ((w.map (fun p => applyInputPlayer (inputs p.id) p)).map
        (updatePhysicsPlayer at2 dt)))[i]? = some a)
    (hj : (evs1.foldl applyEvent
      ((w.map (fun p => applyInputPlayer (inputs p.id) p)).map
        (updatePhysicsPlayer at2 dt)))[j]? = some b)
    (hij : i ≠ j) (hthresh : b.size * SizeMultiplier ≤ a.size)
    (halive : b.alive = true)
    (hninv : ¬(b.powerupActive = true ∧ b.model = "blobfish")) :
    b.size ≤ a.size * SizeMultiplier⁻¹ ∧
    (eatPlayer a b).1.size ≤ MaxPlayerSize ∧
    ∃ q, (tick at2 dt inputs (evs1 ++ TickEvent.eat i j :: evs2) rp w)[j]? = some q ∧
      q.alive = false ∧ q.respawnTime = RespawnDelay - dt := by
  set w1 := (w.map (fun p => applyInputPlayer (inputs p.id) p)).map
    (updatePhysicsPlayer at2 dt) with hw1
  set w1' := evs1.foldl applyEvent w1 with hw1'
  refine ⟨?_, eatPlayer_fired_size_le a b halive hninv, ?_⟩
  · have hsm : (0:ℚ) < SizeMultiplier := by norm_num [SizeMultiplier]
    rw [show a.size * SizeMultiplier⁻¹ = a.size / SizeMultiplier by
      rw [div_eq_mul_inv]]
    rw [le_div_iff hsm]
    exact hthresh
  · have hjlen : j < w1'.length := (List.getElem?_eq_some.mp hj).1
    -- the eat event fires on w1'
    have hfire : applyEvent w1' (TickEvent.eat i j) =
        (w1'.set i (eatPlayer a b).1).set j (eatPlayer a b).2 := by
      rw [applyEvent, hi, hj]
      dsimp only
      rw [if_pos ⟨hij, hthresh⟩]
    have hkilled : ((w1'.set i (eatPlayer a b).1).set j (eatPlayer a b).2)[j]? =
        some (eatPlayer a b).2 := by
      apply List.getElem?_set_eq_of_lt
      simpa using hjlen
    have hdead : (eatPlayer a b).2.alive = false := by
      rw [eatPlayer_fires a b halive hninv]
    have htimer : (eatPlayer a b).2.respawnTime = RespawnDelay := by
      rw [eatPlayer_fires a b halive hninv]
    obtain ⟨q2, hq2, hd2, ht2⟩ := foldl_dead_fixed evs2 _ j _ hkilled hdead
    rw [htimer] at ht2
    -- unwind the tick to the event fold
    have htick : tick at2 dt inputs (evs1 ++ TickEvent.eat i j :: evs2) rp w =
        (((evs2.foldl applyEvent (applyEvent w1' (TickEvent.eat i j))).map
          (fun p => handleRespawnPlayer dt (rp p.id) p)).map
          (updatePowerupPlayer dt)) := by
      rw [tick, List.foldl_append, List.foldl_cons]
    rw [htick, hfire]
    -- respawn stage
    set w2 := evs2.foldl applyEvent ((w1'.set i (eatPlayer a b).1).set j (eatPlayer a b).2)
    have hq3 : (w2.map (fun p => handleRespawnPlayer dt (rp p.id) p))[j]? =
        some (handleRespawnPlayer dt (rp q2.id) q2) := by
      rw [List.getElem?_map, hq2, Option.map_some']
    have hq3v : handleRespawnPlayer dt (rp q2.id) q2 =
        { q2 with respawnTime := q2.respawnTime - dt } := by
      rw [handleRespawnPlayer, if_neg (by simp [hd2])]
      dsimp only
      rw [if_neg (by rw [ht2]; intro h; linarith)]
    -- powerup stage
    refine ⟨updatePowerupPlayer dt (handleRespawnPlayer dt (rp q2.id) q2), ?_, ?_, ?_⟩
    · rw [List.getElem?_map, hq3, Option.map_some']
    · rw [(updatePowerup_frame dt _).1, hq3v]
      exact hd2
    · rw [(updatePowerup_frame dt _).2, hq3v, ht2]

/-- A swordfish of size 30 standing still at (100, 100). -/
noncomputable def pA3 : Player :=
  { id := "a", name := "A", model := "swordfish", position := ⟨100, 100⟩,
    velocity := ⟨0, 0⟩, rotation := 0, size := 30, score := 5, alive := true,
    killedBy := "", respawnTime := 0, inputDirection := ⟨0, 0⟩,
    inputBoost := false, lastSeq := 0, powerupActive := false,
    powerupDuration := 0, baseSize := 0 }

/-- A shark of size 25 standing still at (120, 100). -/
noncomputable def pB3 : Player :=
  { id := "b", name := "B", model := "shark", position := ⟨120, 100⟩,
    velocity := ⟨0, 0⟩, rotation := 0, size := 25, score := 7, alive := true,
    killedBy := "", respawnTime := 0, inputDirection := ⟨0, 0⟩,
    inputBoost := false, lastSeq := 0, powerupActive := false,
    powerupDuration := 0, baseSize := 0 }

/-- Witness for C3: `pA3` eats `pB3` in a one-event tick. -/
theorem C3_eat_invariants_witness :
    pB3.size ≤ pA3.size * SizeMultiplier⁻¹ ∧
    (eatPlayer pA3 pB3).1.size ≤ MaxPlayerSize ∧
    ∃ q, (tick atan2 (1/30) (fun _ => none)
        ([] ++ TickEvent.eat 0 1 :: []) (fun _ => ⟨200, 200⟩) [pA3, pB3])[1]? = some q ∧
      q.alive = false ∧ q.respawnTime = RespawnDelay - 1/30 :=
  C3_eat_invariants atan2 (1/30) (fun _ => none) (fun _ => ⟨200, 200⟩)
    [pA3, pB3] [] [] 0 1 pA3 pB3 (by norm_num) (by norm_num [RespawnDelay])
    (by norm_num [applyInputPlayer, updatePhysicsPlayer, pA3, pB3, lerp,
      Vec2.mul, Vec2.add, Vec2.lengthSq, PlayerSpeed, VelocityLerp,
      MinPlayerSize, WorldWidth, WorldHeight])
    (by norm_num [applyInputPlayer, updatePhysicsPlayer, pA3, pB3, lerp,
      Vec2.mul, Vec2.add, Vec2.lengthSq, PlayerSpeed, VelocityLerp,
      MinPlayerSize, WorldWidth, WorldHeight])
    (by norm_num) (by norm_num [pA3, pB3, SizeMultiplier])
    (by norm_num [pB3]) (by norm_num [pB3])

/-- **C3 (counterexample).** In the tick where `pA3` (size 30) eats `pB3`
(size 25): the claimed pre-condition `A.size·SizeMultiplier⁻¹ ≤ B.size`
is false (the code's threshold is the reverse inequality), and the victim's
end-of-tick respawn timer is `RespawnDelay − dt`, not `RespawnDelay`
(`HandleRespawns` decrements it in the same tick). -/
theorem C3_counterexample :
    ¬((30:ℚ) * SizeMultiplier⁻¹ ≤ 25) ∧
    ((tick atan2 (1/30) (fun _ => none) [TickEvent.eat 0 1] (fun _ => ⟨200, 200⟩)
        [pA3, pB3]).map (fun p => (p.alive, p.respawnTime))) =
      [(true, 0), (false, RespawnDelay - 1/30)] ∧
    RespawnDelay - 1/30 ≠ RespawnDelay := by
  refine ⟨by norm_num [SizeMultiplier], ?_, by norm_num [RespawnDelay]⟩
  norm_num [tick, applyEvent, applyInputPlayer, updatePhysicsPlayer, eatPlayer,
    handleRespawnPlayer, updatePowerupPlayer, respawnPlayer, pA3, pB3, lerp,
    Vec2.mul, Vec2.add, Vec2.lengthSq, PlayerSpeed, VelocityLerp,
    MinPlayerSize, MaxPlayerSize, WorldWidth, WorldHeight, SizeMultiplier,
    RespawnDelay]

/-! ## Racing session manager (`racing.go`, part_012) -/

def CyclesPerRace : ℤ := 50
def CycleProgress : ℚ := 1/50

inductive RState where
  | lobby
  | countdown
  | racing
  | finished
deriving DecidableEq, Repr

structure RacingPlayer where
  id : String
  name : String
  model : String
  mouthCycles : ℤ
  progress : ℚ
  finishTime : ℚ
  finished : Bool
  ready : Bool
  lastUpdate : Option ℚ -- `time.Time`; `none` models the zero value (`IsZero`)
deriving DecidableEq, Repr

structure RaceResult where
  playerId : String
  name : String
  model : String
  finishTime : ℚ
  mouthActionsPerMinute : ℚ
  rank : ℕ
deriving DecidableEq, Repr

/-- The per-race state.  The Go `Players` map (id → player) is modelled as a
list with pairwise-distinct ids. -/
structure Race where
  state : RState
  players : List RacingPlayer
  startTime : ℚ
  countdownStart : ℚ
  finishedPlayers : List RaceResult
deriving DecidableEq, Repr

/-- Go map lookup `r.Players[pid]`. -/
def findPlayer (ps : List RacingPlayer) (pid : String) : Option RacingPlayer :=
  ps.find? (fun q => q.id = pid)

/-- Go map store `r.Players[pid] = p'` (every entry keyed `pid` is replaced). -/
def updatePlayer (ps : List RacingPlayer) (pid : String) (p' : RacingPlayer) :
    List RacingPlayer :=
  ps.map (fun q => if q.id = pid then p' else q)

/-- Broadcast actions a handler can trigger; the state-update handler sends
nothing (its body contains only state mutation and logging). -/
inductive RaceMsg where
  | broadcastState
  | startCountdown
deriving DecidableEq, Repr

/-- The progress computation of `HandleFishStateUpdate` (lines 537-548):
`cycles · CycleProgress`, clamped to 1 when `cycles ≥ CyclesPerRace`, and
capped at 1. -/
def clampProgress (cycles : ℤ) : ℚ :=
  let prog0 : ℚ := (cycles : ℚ) * CycleProgress
  let prog1 := if cycles ≥ CyclesPerRace then 1 else prog0
  if prog1 > 1 then 1 else prog1

/-- `HandleFishStateUpdate(playerID, state)` from `racing.go`: ignores updates
on finished races and unknown players; otherwise stores the
client-authoritative cycle count and timestamp, recomputes the progress
(`cycles · CycleProgress`, clamped to 1 when `cycles ≥ CyclesPerRace` or the
product exceeds 1), and finishes the player on first reaching progress 1,
appending a `RaceResult` with rank 0.  The function sends no messages. -/
def handleFishStateUpdate (now : ℚ) (pid : String) (cycles : ℤ) (r : Race) :
    Race × List RaceMsg :=
  if r.state = RState.finished then (r, [])
  else
    match findPlayer r.players pid with
    | none => (r, [])
    | some p =>
        let p1 := { p with mouthCycles := cycles, lastUpdate := some now }
        let p2 := { p1 with progress := clampProgress cycles }
        if clampProgress cycles ≥ 1 ∧ p2.finished = false then
          let ft := now - r.startTime
          let p3 := { p2 with finished := true, finishTime := ft }
          ({ r with
              players := updatePlayer r.players pid p3,
              finishedPlayers := r.finishedPlayers ++
                [⟨pid, p.name, p.model, ft, ((cycles * 2 : ℤ) : ℚ) / ft * 60, 0⟩] }, [])
        else ({ r with players := updatePlayer r.players pid p2 }, [])

/-- `HandlePlayerReady(playerID)` from `racing.go`: ignored while not in the
Lobby state and for unknown players; otherwise marks the player ready and
either starts the countdown (all ready, ≥ 1 player) or broadcasts the lobby
state. -/
def handlePlayerReady (now : ℚ) (pid : String) (r : Race) : Race × List RaceMsg :=
  if r.state ≠ RState.lobby then (r, [])
  else
    match findPlayer r.players pid with
    | none => (r, [])
    | some p =>
        let ps := updatePlayer r.players pid { p with ready := true }
        if ps.all (fun q => q.ready) ∧ ps.length > 0 then
          ({ r with players := ps, state := RState.countdown, countdownStart := now },
           [RaceMsg.startCountdown])
        else ({ r with players := ps }, [RaceMsg.broadcastState])

/-- The stall pass of `RaceLoop`: walk the players in order; each unfinished
player with `progress ≥ 0.96` whose last update is more than 3 s old is
force-finished, appending its result. -/
def autoFinishList (now start : ℚ) :
    List RacingPlayer → List RaceResult → List RacingPlayer × List RaceResult
  | [], acc => ([], acc)
  | p :: ps, acc =>
      match p.lastUpdate with
      | some lu =>
          if p.finished = false ∧ p.progress ≥ 96/100 ∧ now - lu > 3 then
            let ft := now - start
            let p' := { p with finished := true, finishTime := ft }
            let rest := autoFinishList now start ps (acc ++
              [⟨p.id, p.name, p.model, ft, ((p.mouthCycles * 2 : ℤ) : ℚ) / ft * 60, 0⟩])
            (p' :: rest.1, rest.2)
          else
            let rest := autoFinishList now start ps acc
            (p :: rest.1, rest.2)
      | none =>
          let rest := autoFinishList now start ps acc
          (p :: rest.1, rest.2)

def autoFinishPass (now : ℚ) (r : Race) : Race :=
  let res := autoFinishList now r.startTime r.players r.finishedPlayers
  { r with players := res.1, finishedPlayers := res.2 }

/-- Insertion into a list sorted by ascending finish time; `sortByFinish`
below models `sort.Slice(r.FinishedPlayers, less FinishTime <)` of `EndRace`
(any correct sort produces a finish-time-ordered permutation). -/
def insertByFinish (x : RaceResult) : List RaceResult → List RaceResult
  | [] => [x]
  | y :: ys => if x.finishTime ≤ y.finishTime then x :: y :: ys
               else y :: insertByFinish x ys

def sortByFinish : List RaceResult → List RaceResult
  | [] => []
  | x :: xs => insertByFinish x (sortByFinish xs)

/-- The rank-assignment loop of `EndRace`: `Rank = i + 1` positionally. -/
def assignRanksFrom (k : ℕ) : List RaceResult → List RaceResult
  | [] => []
  | x :: xs => { x with rank := k } :: assignRanksFrom (k+1) xs

/-- `EndRace` from `racing.go`: sort the accumulated results by finish time,
assign ranks `1..n`, and mark the race finished. -/
def endRace (r : Race) : Race :=
  { r with state := RState.finished,
           finishedPlayers := assignRanksFrom 1 (sortByFinish r.finishedPlayers) }

/-! ## C4: progress update on `stateUpdate` -/

theorem find_update (ps : List RacingPlayer) (pid : String) (p p' : RacingPlayer)
    (h : findPlayer ps pid = some p) (hid : p'.id = pid) :
    findPlayer (updatePlayer ps pid p') pid = some p' := by
  induction ps with
  | nil => simp [findPlayer] at h
  | cons q qs ih =>
      by_cases hq : q.id = pid
      · simp [findPlayer, updatePlayer, List.find?, hq, hid]
      · have hd : (decide (q.id = pid)) = false := decide_eq_false hq
        rw [findPlayer, List.find?] at h
        simp only [hd] at h
        rw [updatePlayer, List.map_cons, if_neg hq, findPlayer, List.find?]
        simp only [hd]
        exact ih h

/-- The three-step clamp of `HandleFishStateUpdate` equals
`min(1, cycles · CycleProgress)`. -/
theorem progress_min (c : ℤ) :
    clampProgress c = min 1 ((c : ℚ) * CycleProgress) := by
  rw [clampProgress]
  by_cases hc : c ≥ CyclesPerRace
  · have h1 : (1:ℚ) ≤ (c : ℚ) * CycleProgress := by
      have : (50:ℚ) ≤ (c : ℚ) := by exact_mod_cast hc
      rw [CycleProgress]
      linarith
    rw [if_pos hc, if_neg (by norm_num), min_eq_left h1]
  · have h2 : (c : ℚ) * CycleProgress < 1 := by
      have hlt : (c:ℚ) < 50 := by
        have : c < CyclesPerRace := lt_of_not_le hc
        exact_mod_cast this
      rw [CycleProgress]
      linarith
    rw [if_neg hc, if_neg (not_lt.mpr h2.le), min_eq_right h2.le]

/-- **C4.** A `stateUpdate` carrying `mouthCycles` that reaches a
non-finished race, for an existing player `P`, sets
`P.progress = min(1, mouthCycles · CycleProgress)`; and if that value
reaches 1 while `P` was not yet finished, `P` is marked finished with
`finishTime = now − startTime` and a result is appended whose
mouth-actions-per-minute equals `(mouthCycles · 2 / finishTime) · 60`. -/
theorem C4_progress_update (now : ℚ) (pid : String) (cycles : ℤ) (r : Race)
    (p : RacingPlayer)
    (hstate : r.state ≠ RState.finished)
    (hfind : findPlayer r.players pid = some p) :
    ∃ p', findPlayer (handleFishStateUpdate now pid cycles r).1.players pid = some p' ∧
      p'.progress = min 1 ((cycles : ℚ) * CycleProgress) ∧
      p'.mouthCycles = cycles ∧
      ((1:ℚ) ≤ min 1 ((cycles : ℚ) * CycleProgress) → p.finished = false →
        p'.finished = true ∧ p'.finishTime = now - r.startTime ∧
        (handleFishStateUpdate now pid cycles r).1.finishedPlayers =
          r.finishedPlayers ++
            [⟨pid, p.name, p.model, now - r.startTime,
              ((cycles * 2 : ℤ) : ℚ) / (now - r.startTime) * 60, 0⟩]) ∧
      (¬ ((1:ℚ) ≤ min 1 ((cycles : ℚ) * CycleProgress)) →
        (handleFishStateUpdate now pid cycles r).1.finishedPlayers =
          r.finishedPlayers ∧ p'.finished = p.finished) := by
  have hpid : p.id = pid := by
    have := List.find?_some hfind
    simpa using this
  rw [handleFishStateUpdate, if_neg hstate, hfind]
  dsimp only
  rw [progress_min]
  by_cases hfin : min 1 ((cycles : ℚ) * CycleProgress) ≥ 1 ∧ p.finished = false
  · rw [if_pos hfin]
    dsimp only
    refine ⟨_, find_update r.players pid p _ hfind hpid, rfl, rfl, ?_, ?_⟩
    · exact fun _ _ => ⟨rfl, rfl, rfl⟩
    · intro hn
      exact absurd hfin.1 hn
  · rw [if_neg hfin]
    dsimp only
    refine ⟨_, find_update r.players pid p _ hfind hpid, rfl, rfl, ?_, ?_⟩
    · intro h1 h2
      exact absurd ⟨h1, h2⟩ hfin
    · exact fun _ => ⟨rfl, rfl⟩

/-- A concrete single-player race in the Racing state. -/
def rpW : RacingPlayer :=
  { id := "p1", name := "N", model := "swordfish", mouthCycles := 20,
    progress := 2/5, finishTime := 0, finished := false, ready := true,
    lastUpdate := some 2 }

def raceW : Race :=
  { state := RState.racing, players := [rpW], startTime := 1,
    countdownStart := 0, finishedPlayers := [] }

/-- Witness for C4: the player of `raceW` reports 50 cycles at `now = 8`. -/
theorem C4_progress_update_witness :
    ∃ p', findPlayer (handleFishStateUpdate 8 "p1" 50 raceW).1.players "p1" = some p' ∧
      p'.progress = min 1 ((50 : ℚ) * CycleProgress) ∧
      p'.mouthCycles = 50 ∧
      ((1:ℚ) ≤ min 1 ((50 : ℚ) * CycleProgress) → rpW.finished = false →
        p'.finished = true ∧ p'.finishTime = 8 - raceW.startTime ∧
        (handleFishStateUpdate 8 "p1" 50 raceW).1.finishedPlayers =
          raceW.finishedPlayers ++
            [⟨"p1", rpW.name, rpW.model, 8 - raceW.startTime,
              ((50 * 2 : ℤ) : ℚ) / (8 - raceW.startTime) * 60, 0⟩]) ∧
      (¬ ((1:ℚ) ≤ min 1 ((50 : ℚ) * CycleProgress)) →
        (handleFishStateUpdate 8 "p1" 50 raceW).1.finishedPlayers =
          raceW.finishedPlayers ∧ p'.finished = rpW.finished) :=
  C4_progress_update 8 "p1" 50 raceW rpW (by simp [raceW])
    (by simp [findPlayer, raceW, rpW])

/-! ## C8: silently ignored racing messages -/

/-- **C8.** A `stateUpdate` on a Finished race, a `ready` outside the Lobby
state, and either message naming an unknown player id, leave the race
unchanged and send nothing. -/
theorem C8_ignored_messages (now : ℚ) (pid : String) (cycles : ℤ) (r : Race) :
    (r.state = RState.finished → handleFishStateUpdate now pid cycles r = (r, [])) ∧
    (findPlayer r.players pid = none → handleFishStateUpdate now pid cycles r = (r, [])) ∧
    (r.state ≠ RState.lobby → handlePlayerReady now pid r = (r, [])) ∧
    (findPlayer r.players pid = none → handlePlayerReady now pid r = (r, [])) := by
  refine ⟨?_, ?_, ?_, ?_⟩
  · intro h
    rw [handleFishStateUpdate, if_pos h]
  · intro h
    rw [handleFishStateUpdate]
    split
    · rfl
    · rw [h]
  · intro h
    rw [handlePlayerReady, if_pos h]
  · intro h
    rw [handlePlayerReady]
    split
    · rfl
    · rw [h]

/-- `raceW` already finished. -/
def raceF : Race :=
  { state := RState.finished, players := [rpW], startTime := 1,
    countdownStart := 0, finishedPlayers := [] }

/-- Witness for C8: the finished race `raceF` ignores both a `stateUpdate`
(it is Finished) and a `ready` (it is not in the Lobby). -/
theorem C8_ignored_messages_witness :
    handleFishStateUpdate 9 "p1" 50 raceF = (raceF, []) ∧
    handlePlayerReady 9 "p1" raceF = (raceF, []) :=
  ⟨(C8_ignored_messages 9 "p1" 50 raceF).1 rfl,
   (C8_ignored_messages 9 "p1" 50 raceF).2.2.1 (by simp [raceF])⟩

/-! ## C7: ranking at race end -/

theorem insertByFinish_perm (x : RaceResult) (l : List RaceResult) :
    (insertByFinish x l).Perm (x :: l) := by
  induction l with
  | nil => exact List.Perm.refl _
  | cons y ys ih =>
      rw [insertByFinish]
      split
      · exact List.Perm.refl _
      · exact List.Perm.trans (ih.cons y) (List.Perm.swap x y ys)

theorem sortByFinish_perm (l : List RaceResult) : (sortByFinish l).Perm l := by
  induction l with
  | nil => exact List.Perm.refl _
  | cons x xs ih =>
      rw [sortByFinish]
      exact List.Perm.trans (insertByFinish_perm x _) (ih.cons x)

theorem insertByFinish_pairwise (x : RaceResult) (l : List RaceResult)
    (h : List.Pairwise (fun a b : RaceResult => a.finishTime ≤ b.finishTime) l) :
    List.Pairwise (fun a b : RaceResult => a.finishTime ≤ b.finishTime)
      (insertByFinish x l) := by
  induction l with
  | nil => exact List.pairwise_singleton _ x
  | cons y ys ih =>
      rw [insertByFinish]
      rcases h with _ | ⟨hy, hys⟩
      split
      · next hxy =>
          refine List.Pairwise.cons ?_ (List.Pairwise.cons hy hys)
          intro z hz
          rcases List.mem_cons.mp hz with rfl | hz'
          · exact hxy
          · exact le_trans hxy (hy z hz')
      · next hxy =>
          refine List.Pairwise.cons ?_ (ih hys)
          intro z hz
          have hz' := (insertByFinish_perm x ys).mem_iff.mp hz
          rcases List.mem_cons.mp hz' with rfl | hz''
          · exact le_of_not_le hxy
          · exact hy z hz''

theorem sortByFinish_pairwise (l : List RaceResult) :
    List.Pairwise (fun a b : RaceResult => a.finishTime ≤ b.finishTime)
      (sortByFinish l) := by
  induction l with
  | nil => exact List.Pairwise.nil
  | cons x xs ih => exact insertByFinish_pairwise x _ ih

theorem assignRanksFrom_map_rank (k : ℕ) (l : List RaceResult) :
    (assignRanksFrom k l).map (fun x => x.rank) = List.range' k l.length := by
  induction l generalizing k with
  | nil => rfl
  | cons x xs ih =>
      rw [assignRanksFrom, List.map_cons, ih (k+1), List.length_cons,
        List.range'_succ]

theorem assignRanksFrom_map_playerId (k : ℕ) (l : List RaceResult) :
    (assignRanksFrom k l).map (fun x => x.playerId) = l.map (fun x => x.playerId) := by
  induction l generalizing k with
  | nil => rfl
  | cons x xs ih => rw [assignRanksFrom, List.map_cons, ih (k+1), List.map_cons]

theorem mem_assignRanksFrom (k : ℕ) (l : List RaceResult) (y : RaceResult)
    (h : y ∈ assignRanksFrom k l) : ∃ z ∈ l, y.finishTime = z.finishTime := by
  induction l generalizing k with
  | nil => simp [assignRanksFrom] at h
  | cons x xs ih =>
      rw [assignRanksFrom] at h
      rcases List.mem_cons.mp h with rfl | h'
      · exact ⟨x, List.mem_cons_self x xs, rfl⟩
      · obtain ⟨z, hz, he⟩ := ih (k+1) h'
        exact ⟨z, List.mem_cons_of_mem x hz, he⟩

theorem assignRanksFrom_pairwise (k : ℕ) (l : List RaceResult)
    (h : List.Pairwise (fun a b : RaceResult => a.finishTime ≤ b.finishTime) l) :
    List.Pairwise (fun a b : RaceResult => a.finishTime ≤ b.finishTime)
      (assignRanksFrom k l) := by
  induction l generalizing k with
  | nil => exact List.Pairwise.nil
  | cons x xs ih =>
      rcases h with _ | ⟨hx, hxs⟩
      rw [assignRanksFrom]
      refine List.Pairwise.cons ?_ (ih (k+1) hxs)
      intro y hy
      obtain ⟨z, hz, he⟩ := mem_assignRanksFrom (k+1) xs y hy
      rw [he]
      exact hx z hz

/-- `JoinRace` constructs the player with Go zero values for the remaining
fields. -/
def newRacingPlayer (id name model : String) : RacingPlayer :=
  { id := id, name := name, model := model, mouthCycles := 0, progress := 0,
    finishTime := 0, finished := false, ready := false, lastUpdate := none }

/-- The operations that mutate a race over its lifetime: `JoinRace`,
`HandlePlayerReady`, `HandleFishStateUpdate`, the stall pass of `RaceLoop`
(which only runs while the race is Racing), `StartRace`, and
`DisconnectPlayer`. -/
inductive RaceOp where
  | join (id name model : String)
  | ready (now : ℚ) (pid : String)
  | update (now : ℚ) (pid : String) (cycles : ℤ)
  | stallTick (now : ℚ)
  | startRace (now : ℚ)
  | disconnect (pid : String)

def stepRace (r : Race) (op : RaceOp) : Race :=
  match op with
  | .join id name model =>
      { r with players := r.players ++ [newRacingPlayer id name model] }
  | .ready now pid => (handlePlayerReady now pid r).1
  | .update now pid cycles => (handleFishStateUpdate now pid cycles r).1
  | .stallTick now => if r.state = RState.racing then autoFinishPass now r else r
  | .startRace now => { r with state := RState.racing, startTime := now }
  | .disconnect pid => { r with players := r.players.filter (fun q => q.id ≠ pid) }

/-- `generateClientID` produces a fresh id per connection, so a joining id
differs from every current member's id and from every recorded result's id. -/
def validOp (r : Race) : RaceOp → Prop
  | .join id _ _ => (∀ p ∈ r.players, p.id ≠ id) ∧
      (∀ res ∈ r.finishedPlayers, res.playerId ≠ id)
  | _ => True

def validOps : Race → List RaceOp → Prop
  | _, [] => True
  | r, op :: ops => validOp r op ∧ validOps (stepRace r op) ops

def newRace : Race :=
  { state := RState.lobby, players := [], startTime := 0, countdownStart := 0,
    finishedPlayers := [] }

/-- The inductive results invariant: recorded results carry pairwise-distinct
player ids, every present player that has a recorded result is flagged
finished, and the member ids are pairwise distinct. -/
def resultsInv (r : Race) : Prop :=
  (r.finishedPlayers.map (fun x => x.playerId)).Nodup ∧
  (∀ res ∈ r.finishedPlayers, ∀ p ∈ r.players, p.id = res.playerId →
    p.finished = true) ∧
  (r.players.map (fun x => x.id)).Nodup

theorem updatePlayer_map_id (ps : List RacingPlayer) (pid : String)
    (p' : RacingPlayer) (hid : p'.id = pid) :
    (updatePlayer ps pid p').map (fun x => x.id) = ps.map (fun x => x.id) := by
  rw [updatePlayer, List.map_map]
  apply List.map_congr_left
  intro q _
  dsimp only [Function.comp]
  split
  · next hq => rw [hid, hq]
  · rfl

theorem mem_updatePlayer (ps : List RacingPlayer) (pid : String)
    (p' q' : RacingPlayer) (h : q' ∈ updatePlayer ps pid p') :
    q' = p' ∨ (q' ∈ ps ∧ q'.id ≠ pid) := by
  rw [updatePlayer] at h
  obtain ⟨q, hq, he⟩ := List.mem_map.mp h
  by_cases hid : q.id = pid
  · rw [if_pos hid] at he
    exact Or.inl he.symm
  · rw [if_neg hid] at he
    exact Or.inr ⟨he ▸ hq, he ▸ hid⟩

theorem findPlayer_mem (ps : List RacingPlayer) (pid : String)
    (p : RacingPlayer) (h : findPlayer ps pid = some p) :
    p ∈ ps ∧ p.id = pid := by
  refine ⟨List.mem_of_find?_eq_some h, ?_⟩
  have := List.find?_some h
  simpa using this

theorem autoFinishList_inv (now start : ℚ) (ps : List RacingPlayer)
    (acc : List RaceResult)
    (hndp : (ps.map (fun x => x.id)).Nodup)
    (hnda : (acc.map (fun x => x.playerId)).Nodup)
    (hpa : ∀ res ∈ acc, ∀ p ∈ ps, p.id = res.playerId → p.finished = true) :
    ((autoFinishList now start ps acc).1.map (fun x => x.id) =
      ps.map (fun x => x.id)) ∧
    ((autoFinishList now start ps acc).2.map (fun x => x.playerId)).Nodup ∧
    (∀ res ∈ (autoFinishList now start ps acc).2,
      ∀ p ∈ (autoFinishList now start ps acc).1,
        p.id = res.playerId → p.finished = true) ∧
    (∀ res ∈ (autoFinishList now start ps acc).2,
      res ∈ acc ∨ res.playerId ∈ ps.map (fun x => x.id)) := by
  induction ps generalizing acc with
  | nil =>
      refine ⟨rfl, hnda, ?_, ?_⟩
      · intro res _ p hp
        simp [autoFinishList] at hp
      · intro res hres
        exact Or.inl hres
  | cons p ps ih =>
      rw [List.map_cons] at hndp
      obtain ⟨hp_notin, hndp''⟩ := List.nodup_cons.mp hndp
      -- the two "skip" shapes share one argument
      have hskip : ∀ acc2 : List RaceResult, acc2 = acc →
          (((p :: (autoFinishList now start ps acc).1).map (fun x => x.id) =
            (p :: ps).map (fun x => x.id)) ∧
          ((autoFinishList now start ps acc).2.map (fun x => x.playerId)).Nodup ∧
          (∀ res ∈ (autoFinishList now start ps acc).2,
            ∀ q ∈ p :: (autoFinishList now start ps acc).1,
              q.id = res.playerId → q.finished = true) ∧
          (∀ res ∈ (autoFinishList now start ps acc).2,
            res ∈ acc ∨ res.playerId ∈ (p :: ps).map (fun x => x.id))) := by
        intro acc2 _
        have hpa' : ∀ res ∈ acc, ∀ q ∈ ps, q.id = res.playerId → q.finished = true :=
          fun res hres q hq => hpa res hres q (List.mem_cons_of_mem p hq)
        obtain ⟨i1, i2, i3, i4⟩ := ih acc hndp'' hnda hpa'
        refine ⟨?_, i2, ?_, ?_⟩
        · rw [List.map_cons, List.map_cons, i1]
        · intro res hres q hq hqid
          rcases List.mem_cons.mp hq with rfl | hq'
          · rcases i4 res hres with hin | hid
            · exact hpa res hin q (List.mem_cons_self q ps) hqid
            · rw [hqid] at hp_notin
              exact absurd hid hp_notin
          · exact i3 res hres q hq' hqid
        · intro res hres
          rcases i4 res hres with hin | hid
          · exact Or.inl hin
          · exact Or.inr (by rw [List.map_cons]; exact List.mem_cons_of_mem _ hid)
      rw [autoFinishList]
      cases hlu : p.lastUpdate with
      | none => exact hskip acc rfl
      | some lu =>
          dsimp only
          split
          · next hg =>
              -- force-finish: append p's result and recurse
              set resP : RaceResult := ⟨p.id, p.name, p.model, now - start,
                ((p.mouthCycles * 2 : ℤ) : ℚ) / (now - start) * 60, 0⟩ with hresP
              have hpid_notin : p.id ∉ acc.map (fun x => x.playerId) := by
                intro hmem
                obtain ⟨res0, hres0, he⟩ := List.mem_map.mp hmem
                have := hpa res0 hres0 p (List.mem_cons_self p ps) he.symm
                rw [this] at hg
                exact absurd hg.1 (by simp)
              have hnda' : ((acc ++ [resP]).map (fun x => x.playerId)).Nodup := by
                rw [List.map_append]
                refine List.Nodup.append hnda (List.nodup_singleton _) ?_
                intro a ha hb
                simp only [List.map_cons, List.map_nil, List.mem_singleton] at hb
                rw [hb] at ha
                exact hpid_notin ha
              have hpa' : ∀ res ∈ acc ++ [resP], ∀ q ∈ ps,
                  q.id = res.playerId → q.finished = true := by
                intro res hres q hq hqid
                rcases List.mem_append.mp hres with hin | hnew
                · exact hpa res hin q (List.mem_cons_of_mem p hq) hqid
                · rw [List.mem_singleton.mp hnew] at hqid
                  have hq2 : q.id = p.id := by rw [hqid, hresP]
                  exact absurd (List.mem_map.mpr ⟨q, hq, hq2⟩) hp_notin
              obtain ⟨i1, i2, i3, i4⟩ := ih (acc ++ [resP]) hndp'' hnda' hpa'
              refine ⟨?_, i2, ?_, ?_⟩
              · rw [List.map_cons, List.map_cons, i1]
              · intro res hres q hq hqid
                rcases List.mem_cons.mp hq with rfl | hq'
                · rfl
                · exact i3 res hres q hq' hqid
              · intro res hres
                rcases i4 res hres with hin | hid
                · rcases List.mem_append.mp hin with ha | hb
                  · exact Or.inl ha
                  · have hr := List.mem_singleton.mp hb
                    refine Or.inr ?_
                    rw [List.map_cons, hr, hresP]
                    exact List.mem_cons_self _ _
                · exact Or.inr (by rw [List.map_cons]; exact List.mem_cons_of_mem _ hid)
          · exact hskip acc rfl

theorem updatePlayer_keeps (ps : List RacingPlayer) (pid : String)
    (p p' : RacingPlayer) (results : List RaceResult)
    (hfind : findPlayer ps pid = some p)
    (hbi : ∀ res ∈ results, ∀ q ∈ ps, q.id = res.playerId → q.finished = true)
    (hfin : ∀ res ∈ results, p.id = res.playerId → p'.finished = true)
    (hid : p'.id = pid) :
    ∀ res ∈ results, ∀ q ∈ updatePlayer ps pid p',
      q.id = res.playerId → q.finished = true := by
  intro res hres q hq hqid
  rcases mem_updatePlayer ps pid p' q hq with rfl | ⟨hqin, _⟩
  · apply hfin res hres
    rw [(findPlayer_mem ps pid p hfind).2, ← hid]
    exact hqid
  · exact hbi res hres q hqin hqid

theorem stepRace_resultsInv (r : Race) (op : RaceOp)
    (h : resultsInv r) (hop : validOp r op) : resultsInv (stepRace r op) := by
  obtain ⟨h1, h2, h3⟩ := h
  cases op with
  | join id name model =>
      obtain ⟨hfresh1, hfresh2⟩ := hop
      refine ⟨h1, ?_, ?_⟩
      · intro res hres q hq hqid
        rcases List.mem_append.mp hq with hin | hnew
        · exact h2 res hres q hin hqid
        · rw [List.mem_singleton.mp hnew] at hqid
          exact absurd hqid.symm (hfresh2 res hres)
      · rw [stepRace]
        dsimp only
        rw [List.map_append]
        refine List.Nodup.append h3 (List.nodup_singleton _) ?_
        intro a ha hb
        simp only [List.map_cons, List.map_nil, List.mem_singleton] at hb
        obtain ⟨q, hq, he⟩ := List.mem_map.mp ha
        rw [hb] at he
        exact hfresh1 q hq he
  | ready now pid =>
      rw [stepRace, handlePlayerReady]
      split
      · exact ⟨h1, h2, h3⟩
      · split
        · exact ⟨h1, h2, h3⟩
        · next p hf =>
            dsimp only
            have hkeep := updatePlayer_keeps r.players pid p { p with ready := true }
              r.finishedPlayers hf h2
              (fun res hres hpid =>
                h2 res hres p (findPlayer_mem r.players pid p hf).1 hpid)
              (findPlayer_mem r.players pid p hf).2
            have hids : ((updatePlayer r.players pid { p with ready := true }).map
                (fun x => x.id)) = r.players.map (fun x => x.id) :=
              updatePlayer_map_id r.players pid _ (findPlayer_mem r.players pid p hf).2
            split
            · exact ⟨h1, hkeep, by rw [hids]; exact h3⟩
            · exact ⟨h1, hkeep, by rw [hids]; exact h3⟩
  | update now pid cycles =>
      rw [stepRace, handleFishStateUpdate]
      split
      · exact ⟨h1, h2, h3⟩
      · split
        · exact ⟨h1, h2, h3⟩
        · next p hf =>
            dsimp only
            have hpmem := (findPlayer_mem r.players pid p hf).1
            have hpid := (findPlayer_mem r.players pid p hf).2
            split
            · next hg =>
                -- finish branch
                have hpid_notin : pid ∉ r.finishedPlayers.map (fun x => x.playerId) := by
                  intro hmem
                  obtain ⟨res0, hres0, he⟩ := List.mem_map.mp hmem
                  have := h2 res0 hres0 p hpmem (by rw [hpid, he])
                  rw [this] at hg
                  exact absurd hg.2 (by simp)
                refine ⟨?_, ?_, ?_⟩ <;> dsimp only
                · rw [List.map_append]
                  refine List.Nodup.append h1 (List.nodup_singleton _) ?_
                  intro a ha hb
                  simp only [List.map_cons, List.map_nil, List.mem_singleton] at hb
                  rw [hb] at ha
                  exact hpid_notin ha
                · intro res hres q hq hqid
                  rcases mem_updatePlayer _ _ _ q hq with rfl | ⟨hqin, hqne⟩
                  · rfl
                  · rcases List.mem_append.mp hres with hin | hnew
                    · exact h2 res hin q hqin hqid
                    · rw [List.mem_singleton.mp hnew] at hqid
                      exact absurd hqid hqne
                · rw [updatePlayer_map_id r.players pid { p with mouthCycles := cycles, lastUpdate := some now, progress := clampProgress cycles, finished := true, finishTime := now - r.startTime } hpid]
                  exact h3
            · have hkeep := updatePlayer_keeps r.players pid p { p with mouthCycles := cycles, lastUpdate := some now, progress := clampProgress cycles } r.finishedPlayers hf h2 (fun res hres hpid2 => h2 res hres p hpmem hpid2) hpid
              refine ⟨h1, ?_, ?_⟩ <;> dsimp only
              · exact hkeep
              · rw [updatePlayer_map_id r.players pid { p with mouthCycles := cycles, lastUpdate := some now, progress := clampProgress cycles } hpid]
                exact h3
  | stallTick now =>
      rw [stepRace]
      split
      · obtain ⟨i1, i2, i3, _⟩ :=
          autoFinishList_inv now r.startTime r.players r.finishedPlayers h3 h1 h2
        refine ⟨i2, i3, ?_⟩
        rw [autoFinishPass]
        dsimp only
        rw [i1]
        exact h3
      · exact ⟨h1, h2, h3⟩
  | startRace now => exact ⟨h1, h2, h3⟩
  | disconnect pid =>
      refine ⟨h1, ?_, ?_⟩
      · intro res hres q hq hqid
        exact h2 res hres q (List.mem_of_mem_filter hq) hqid
      · exact List.Nodup.sublist (List.Sublist.map _ (List.filter_sublist _)) h3

theorem foldl_stepRace_resultsInv (ops : List RaceOp) (r : Race)
    (h : resultsInv r) (hv : validOps r ops) :
    resultsInv (List.foldl stepRace r ops) := by
  induction ops generalizing r with
  | nil => exact h
  | cons op ops ih =>
      exact ih (stepRace r op) (stepRace_resultsInv r op h hv.1) hv.2

/-- **C7.** After any reachable race history, `EndRace` produces a result
list whose rank fields are exactly `1..n` positionally (`n` the number of
accumulated results), ordered by ascending finish time, and in which every
player id appears at most once — whether the results were recorded by a
normal finish or by the stall pass. -/
theorem C7_endRace_ranking (ops : List RaceOp) (hv : validOps newRace ops) :
    ((endRace (List.foldl stepRace newRace ops)).finishedPlayers.map
        (fun x => x.rank) =
      List.range' 1 (List.foldl stepRace newRace ops).finishedPlayers.length) ∧
    List.Pairwise (fun a b : RaceResult => a.finishTime ≤ b.finishTime)
      (endRace (List.foldl stepRace newRace ops)).finishedPlayers ∧
    ((endRace (List.foldl stepRace newRace ops)).finishedPlayers.map
      (fun x => x.playerId)).Nodup := by
  have hinv : resultsInv (List.foldl stepRace newRace ops) :=
    foldl_stepRace_resultsInv ops newRace
      ⟨List.nodup_nil, by intro res hres; simp [newRace] at hres, List.nodup_nil⟩ hv
  refine ⟨?_, ?_, ?_⟩
  · rw [endRace]
    dsimp only
    rw [assignRanksFrom_map_rank]
    rw [(sortByFinish_perm _).length_eq]
  · exact assignRanksFrom_pairwise 1 _ (sortByFinish_pairwise _)
  · rw [endRace]
    dsimp only
    rw [assignRanksFrom_map_playerId]
    exact (((sortByFinish_perm _).map _).nodup_iff).mpr hinv.1

/-- Witness for C7: one player joins, the race starts, the player reports 50
cycles and finishes; `EndRace` then ranks the single result. -/
theorem C7_endRace_ranking_witness :
    ((endRace (List.foldl stepRace newRace
        [RaceOp.join "p1" "N" "swordfish", RaceOp.startRace 1,
         RaceOp.update 8 "p1" 50])).finishedPlayers.map (fun x => x.rank) =
      List.range' 1 (List.foldl stepRace newRace
        [RaceOp.join "p1" "N" "swordfish", RaceOp.startRace 1,
         RaceOp.update 8 "p1" 50]).finishedPlayers.length) ∧
    List.Pairwise (fun a b : RaceResult => a.finishTime ≤ b.finishTime)
      (endRace (List.foldl stepRace newRace
        [RaceOp.join "p1" "N" "swordfish", RaceOp.startRace 1,
         RaceOp.update 8 "p1" 50])).finishedPlayers ∧
    ((endRace (List.foldl stepRace newRace
        [RaceOp.join "p1" "N" "swordfish", RaceOp.startRace 1,
         RaceOp.update 8 "p1" 50])).finishedPlayers.map
      (fun x => x.playerId)).Nodup :=
  C7_endRace_ranking
    [RaceOp.join "p1" "N" "swordfish", RaceOp.startRace 1, RaceOp.update 8 "p1" 50]
    (by simp [validOps, validOp, newRace])

/-! ## Quadtree (`server/quadtree.go`)

Go's `Insert` mutates and recurses without a depth limit; the recursion is
modelled with an explicit fuel parameter, `none` meaning the recursion depth
exceeded the fuel.  A result of `none` for every fuel value is the meaning
of non-termination of the source. -/

structure Ent where
  id : String
  pos : Vec2
  radius : ℚ
deriving DecidableEq, Repr

structure QRect where
  x : ℚ
  y : ℚ
  width : ℚ
  height : ℚ
deriving DecidableEq, Repr

/-- `Rect.Contains` from `math.go` (inclusive on all four edges). -/
def QRect.contains (r : QRect) (p : Vec2) : Prop :=
  r.x ≤ p.x ∧ p.x ≤ r.x + r.width ∧ r.y ≤ p.y ∧ p.y ≤ r.y + r.height

instance (r : QRect) (p : Vec2) : Decidable (r.contains p) := by
  unfold QRect.contains
  infer_instance

/-- `CircleIntersectsRect` from `math.go`. -/
def circleIntersectsRect (center : Vec2) (radius : ℚ) (rect : QRect) : Prop :=
  let closestX := max rect.x (min center.x (rect.x + rect.width))
  let closestY := max rect.y (min center.y (rect.y + rect.height))
  (center.x - closestX) * (center.x - closestX) +
    (center.y - closestY) * (center.y - closestY) < radius * radius

instance (c : Vec2) (r : ℚ) (rect : QRect) :
    Decidable (circleIntersectsRect c r rect) := by
  unfold circleIntersectsRect
  infer_instance

/-- `Distance(a, b) ≤ c`, squared to stay in `ℚ`; `distanceLe_iff` justifies
the translation of the `math.Sqrt`-based source comparison. -/
def distanceLe (a b : Vec2) (c : ℚ) : Prop :=
  0 ≤ c ∧ (b.x - a.x) * (b.x - a.x) + (b.y - a.y) * (b.y - a.y) ≤ c * c

instance (a b : Vec2) (c : ℚ) : Decidable (distanceLe a b c) := by
  unfold distanceLe
  infer_instance

theorem distanceLe_iff (a b : Vec2) (c : ℚ) :
    distanceLe a b c ↔
      Real.sqrt (((b.x - a.x) * (b.x - a.x) + (b.y - a.y) * (b.y - a.y) : ℚ) : ℝ)
        ≤ (c : ℝ) := by
  have hd2 : (0:ℝ) ≤ ((b.x - a.x) * (b.x - a.x) + (b.y - a.y) * (b.y - a.y) : ℚ) := by
    have h := add_nonneg (mul_self_nonneg (b.x - a.x)) (mul_self_nonneg (b.y - a.y))
    exact_mod_cast h
  constructor
  · rintro ⟨hc, hle⟩
    have hle' : ((b.x - a.x) * (b.x - a.x) + (b.y - a.y) * (b.y - a.y) : ℚ) ≤
        ((c : ℚ) * c : ℚ) := hle
    have : (((b.x - a.x) * (b.x - a.x) + (b.y - a.y) * (b.y - a.y) : ℚ) : ℝ) ≤
        ((c : ℝ) * (c : ℝ)) := by exact_mod_cast hle'
    calc Real.sqrt _ ≤ Real.sqrt ((c : ℝ) * (c : ℝ)) := Real.sqrt_le_sqrt this
      _ = (c : ℝ) := Real.sqrt_mul_self (by exact_mod_cast hc)
  · intro h
    have hc : (0:ℝ) ≤ (c : ℝ) := le_trans (Real.sqrt_nonneg _) h
    refine ⟨by exact_mod_cast hc, ?_⟩
    have := Real.sq_sqrt hd2
    have h2 : (((b.x - a.x) * (b.x - a.x) + (b.y - a.y) * (b.y - a.y) : ℚ) : ℝ) ≤
        (c : ℝ) * (c : ℝ) := by
      calc (((b.x - a.x) * (b.x - a.x) + (b.y - a.y) * (b.y - a.y) : ℚ) : ℝ)
          = Real.sqrt _ * Real.sqrt _ := (Real.mul_self_sqrt hd2).symm
        _ ≤ (c : ℝ) * (c : ℝ) := by
            exact mul_le_mul h h (Real.sqrt_nonneg _) hc
    exact_mod_cast h2

inductive Quadtree where
  | leaf (bounds : QRect) (capacity : ℕ) (entities : List Ent)
  | node (bounds : QRect) (capacity : ℕ) (nw ne sw se : Quadtree)
deriving DecidableEq, Repr

def Quadtree.bounds : Quadtree → QRect
  | .leaf b _ _ => b
  | .node b _ _ _ _ _ => b

/-- The four quadrant rectangles of `Subdivide`. -/
def nwRect (b : QRect) : QRect := ⟨b.x, b.y, b.width / 2, b.height / 2⟩

def neRect (b : QRect) : QRect := ⟨b.x + b.width / 2, b.y, b.width / 2, b.height / 2⟩

def swRect (b : QRect) : QRect := ⟨b.x, b.y + b.height / 2, b.width / 2, b.height / 2⟩

def seRect (b : QRect) : QRect := ⟨b.x + b.width / 2, b.y + b.height / 2, b.width / 2, b.height / 2⟩

/-- One step of `Subdivide`'s re-insertion loop: insert the entity into all
four children, ignoring the returned booleans. -/
def subdivideStep (ins : Quadtree → Ent → Option (Quadtree × Bool))
    (c : Quadtree × Quadtree × Quadtree × Quadtree) (e : Ent) :
    Option (Quadtree × Quadtree × Quadtree × Quadtree) := do
  let (cnw', _) ← ins c.1 e
  let (cne', _) ← ins c.2.1 e
  let (csw', _) ← ins c.2.2.1 e
  let (cse', _) ← ins c.2.2.2 e
  pure (cnw', cne', csw', cse')

/-- The re-insertion loop of `Subdivide`: every held entity is inserted into
all four fresh children (ignoring the returned booleans), then the node
drops its own entity list. -/
def subdivideWith (ins : Quadtree → Ent → Option (Quadtree × Bool))
    (b : QRect) (cap : ℕ) (ents : List Ent) : Option Quadtree :=
  (ents.foldlM (subdivideStep ins)
    (Quadtree.leaf (nwRect b) cap [], Quadtree.leaf (neRect b) cap [],
     Quadtree.leaf (swRect b) cap [], Quadtree.leaf (seRect b) cap [])).map
    fun (c : Quadtree × Quadtree × Quadtree × Quadtree) =>
      Quadtree.node b cap c.1 c.2.1 c.2.2.1 c.2.2.2

/-- The child-dispatch of `Insert`: try NW, NE, SW, SE in order, stopping at
the first success (failed attempts still keep any mutation). -/
def tryChildrenWith (ins : Quadtree → Ent → Option (Quadtree × Bool))
    (t : Quadtree) (e : Ent) : Option (Quadtree × Bool) :=
  match t with
  | .node b cap nw ne sw se => do
      let (nw', r1) ← ins nw e
      if r1 then pure (Quadtree.node b cap nw' ne sw se, true)
      else do
        let (ne', r2) ← ins ne e
        if r2 then pure (Quadtree.node b cap nw' ne' sw se, true)
        else do
          let (sw', r3) ← ins sw e
          if r3 then pure (Quadtree.node b cap nw' ne' sw' se, true)
          else do
            let (se', r4) ← ins se e
            pure (Quadtree.node b cap nw' ne' sw' se', r4)
  | t => some (t, false)

/-- `Insert` with explicit recursion fuel: reject out-of-bounds positions,
append while below capacity, otherwise subdivide and recurse into the
children. -/
def insertF : ℕ → Quadtree → Ent → Option (Quadtree × Bool)
  | 0, _, _ => none
  | fuel+1, Quadtree.leaf b cap ents, e =>
      if QRect.contains b e.pos then
        if ents.length < cap then some (Quadtree.leaf b cap (ents ++ [e]), true)
        else
          match subdivideWith (insertF fuel) b cap ents with
          | none => none
          | some t' => tryChildrenWith (insertF fuel) t' e
      else some (Quadtree.leaf b cap ents, false)
  | fuel+1, Quadtree.node b cap nw ne sw se, e =>
      if QRect.contains b e.pos then
        tryChildrenWith (insertF fuel) (Quadtree.node b cap nw ne sw se) e
      else some (Quadtree.node b cap nw ne sw se, false)

/-- `QueryCircle`: collect entities whose distance to the centre is within
`radius + entity.radius`, recursing into the children. -/
def queryCircle : Quadtree → Vec2 → ℚ → List Ent → List Ent
  | .leaf b _ ents, center, radius, found =>
      if circleIntersectsRect center radius b then
        found ++ ents.filter (fun e => distanceLe center e.pos (radius + e.radius))
      else found
  | .node b _ nw ne sw se, center, radius, found =>
      if circleIntersectsRect center radius b then
        queryCircle se center radius
          (queryCircle sw center radius
            (queryCircle ne center radius
              (queryCircle nw center radius found)))
      else found

/-- Number of occurrences of an entity across the tree's node lists. -/
def occCount (e : Ent) : Quadtree → ℕ
  | .leaf _ _ ents => ents.count e
  | .node _ _ nw ne sw se =>
      occCount e nw + occCount e ne + occCount e sw + occCount e se

/-! ## C9: `Insert` does not terminate on more than `capacity` coincident
entities -/

/-- The state of a fresh quadrant child while co-located entities are
re-inserted: the child holds the processed prefix iff it contains the shared
position. -/
def childLeaf (rb : QRect) (cap : ℕ) (p : Vec2) (l : List Ent) : Quadtree :=
  Quadtree.leaf rb cap (if QRect.contains rb p then l else [])

theorem childLeaf_nil (rb : QRect) (cap : ℕ) (p : Vec2) :
    childLeaf rb cap p [] = Quadtree.leaf rb cap [] := by
  rw [childLeaf, ite_self]

theorem insert_into_childLeaf (f : ℕ) (rb : QRect) (cap : ℕ) (p : Vec2)
    (e : Ent) (l : List Ent) (he : e.pos = p) (hlen : l.length < cap) :
    insertF (f+1) (childLeaf rb cap p l) e =
      some (childLeaf rb cap p (l ++ [e]), decide (QRect.contains rb p)) := by
  by_cases hc : QRect.contains rb p
  · rw [childLeaf, if_pos hc, childLeaf, if_pos hc]
    simp only [insertF]
    rw [if_pos (by rw [he]; exact hc), if_pos hlen, decide_eq_true hc]
  · rw [childLeaf, if_neg hc, childLeaf, if_neg hc]
    simp only [insertF]
    rw [if_neg (by rw [he]; exact hc), decide_eq_false hc]

theorem subdivide_fold (g : ℕ) (cap : ℕ) (p : Vec2)
    (remaining done : List Ent)
    (hall : ∀ e ∈ remaining, e.pos = p)
    (hlen : done.length + remaining.length ≤ cap) (r1 r2 r3 r4 : QRect) :
    List.foldlM (subdivideStep (insertF (g+1)))
      (childLeaf r1 cap p done, childLeaf r2 cap p done,
       childLeaf r3 cap p done, childLeaf r4 cap p done) remaining =
    some (childLeaf r1 cap p (done ++ remaining),
          childLeaf r2 cap p (done ++ remaining),
          childLeaf r3 cap p (done ++ remaining),
          childLeaf r4 cap p (done ++ remaining)) := by
  induction remaining generalizing done with
  | nil => simp [List.foldlM]
  | cons e es ih =>
      have he : e.pos = p := hall e (List.mem_cons_self e es)
      have hd : done.length < cap := by
        have := hlen
        rw [List.length_cons] at this
        omega
      rw [List.foldlM_cons]
      rw [show subdivideStep (insertF (g+1))
          (childLeaf r1 cap p done, childLeaf r2 cap p done,
           childLeaf r3 cap p done, childLeaf r4 cap p done) e =
        some (childLeaf r1 cap p (done ++ [e]), childLeaf r2 cap p (done ++ [e]),
              childLeaf r3 cap p (done ++ [e]), childLeaf r4 cap p (done ++ [e]))
        from by
          simp [subdivideStep,
            insert_into_childLeaf g r1 cap p e done he hd,
            insert_into_childLeaf g r2 cap p e done he hd,
            insert_into_childLeaf g r3 cap p e done he hd,
            insert_into_childLeaf g r4 cap p e done he hd]]
      rw [Option.bind_eq_bind, Option.some_bind]
      rw [ih (done ++ [e]) (fun x hx => hall x (List.mem_cons_of_mem e hx))
        (by rw [List.length_append]; rw [List.length_cons] at hlen; simp; omega)]
      simp

/-- A point of the parent rectangle lies in at least one of the four
(edge-inclusive) quadrants: if it misses NW, NE and SW it is in SE. -/
theorem quadrant_cover (b : QRect) (p : Vec2) (h : b.contains p)
    (h1 : ¬ (nwRect b).contains p) (h2 : ¬ (neRect b).contains p)
    (h3 : ¬ (swRect b).contains p) : (seRect b).contains p := by
  obtain ⟨ha, hb', hc, hd⟩ := h
  rw [nwRect, QRect.contains] at h1
  rw [neRect, QRect.contains] at h2
  rw [swRect, QRect.contains] at h3
  rw [seRect, QRect.contains]
  dsimp only at h1 h2 h3 ⊢
  push_neg at h1 h2 h3
  by_cases hy : p.y ≤ b.y + b.height / 2
  · by_cases hx : p.x ≤ b.x + b.width / 2
    · exact absurd hy (not_le.mpr (h1 ha hx hc))
    · have := h2 (le_of_not_le hx) (by linarith) hc
      exact absurd hy (not_le.mpr this)
  · have hy' : b.y + b.height / 2 ≤ p.y := le_of_not_le hy
    by_cases hx : p.x ≤ b.x + b.width / 2
    · have := h3 ha hx hy'
      exact absurd this (not_lt.mpr (by linarith))
    · exact ⟨le_of_not_le hx, by linarith, hy', by linarith⟩

/-- Inserting a fifth co-located entity into a capacity-4 leaf whose bounds
contain the shared position exhausts every amount of fuel: `Insert` and
`Subdivide` recurse forever, since every subdivision keeps all entities in
one child. -/
theorem insertF_same_point_none (e1 e2 e3 e4 e5 : Ent) (p : Vec2)
    (h1 : e1.pos = p) (h2 : e2.pos = p) (h3 : e3.pos = p) (h4 : e4.pos = p)
    (h5 : e5.pos = p) :
    ∀ fuel (b : QRect), QRect.contains b p →
      insertF fuel (Quadtree.leaf b 4 [e1, e2, e3, e4]) e5 = none := by
  intro fuel
  induction fuel with
  | zero => intro b _; rfl
  | succ f ih =>
      intro b hb
      simp only [insertF]
      rw [if_pos (show QRect.contains b e5.pos by rw [h5]; exact hb)]
      rw [if_neg (by norm_num)]
      cases f with
      | zero =>
          have hsub : subdivideWith (insertF 0) b 4 [e1, e2, e3, e4] = none := by
            simp [subdivideWith, subdivideStep, insertF]
          rw [hsub]
      | succ g =>
          have hall : ∀ e ∈ [e1, e2, e3, e4], e.pos = p := by
            intro e he
            fin_cases he <;> assumption
          have hsub : subdivideWith (insertF (g+1)) b 4 [e1, e2, e3, e4] =
              some (Quadtree.node b 4
                (childLeaf (nwRect b) 4 p [e1, e2, e3, e4])
                (childLeaf (neRect b) 4 p [e1, e2, e3, e4])
                (childLeaf (swRect b) 4 p [e1, e2, e3, e4])
                (childLeaf (seRect b) 4 p [e1, e2, e3, e4])) := by
            rw [subdivideWith]
            rw [show (Quadtree.leaf (nwRect b) 4 [], Quadtree.leaf (neRect b) 4 [],
                Quadtree.leaf (swRect b) 4 [], Quadtree.leaf (seRect b) 4 []) =
              (childLeaf (nwRect b) 4 p [], childLeaf (neRect b) 4 p [],
               childLeaf (swRect b) 4 p [], childLeaf (seRect b) 4 p []) from by
                rw [childLeaf_nil, childLeaf_nil, childLeaf_nil, childLeaf_nil]]
            rw [subdivide_fold g 4 p [e1, e2, e3, e4] [] hall (by norm_num)]
            rfl
          rw [hsub]
          -- insert e5 into the children in NW, NE, SW, SE order
          have negIns : ∀ rb : QRect, ¬ QRect.contains rb p →
              insertF (g+1) (childLeaf rb 4 p [e1, e2, e3, e4]) e5 =
                some (childLeaf rb 4 p [e1, e2, e3, e4], false) := by
            intro rb hc
            rw [childLeaf, if_neg hc]
            simp only [insertF]
            rw [if_neg (show ¬ QRect.contains rb e5.pos by rw [h5]; exact hc)]
          have posIns : ∀ rb : QRect, QRect.contains rb p →
              insertF (g+1) (childLeaf rb 4 p [e1, e2, e3, e4]) e5 = none := by
            intro rb hc
            rw [childLeaf, if_pos hc]
            exact ih rb hc
          dsimp only
          rw [tryChildrenWith.eq_def]
          dsimp only
          by_cases c1 : QRect.contains (nwRect b) p
          · rw [posIns _ c1]
            rfl
          · rw [negIns _ c1]
            simp only [Option.bind_eq_bind, Option.some_bind, Bool.false_eq_true, if_false]
            by_cases c2 : QRect.contains (neRect b) p
            · rw [posIns _ c2]
              rfl
            · rw [negIns _ c2]
              simp only [Option.bind_eq_bind, Option.some_bind, Bool.false_eq_true, if_false]
              by_cases c3 : QRect.contains (swRect b) p
              · rw [posIns _ c3]
                rfl
              · rw [negIns _ c3]
                simp only [Option.bind_eq_bind, Option.some_bind, Bool.false_eq_true, if_false]
                have c4 : QRect.contains (seRect b) p :=
                  quadrant_cover b p hb c1 c2 c3
                rw [posIns _ c4]
                rfl

/-- **C9.** The failing input: five entities at the same position
`(100, 100)` in the world rectangle.  The first conjunct shows the
four-entity leaf is reachable by four `Insert` calls on a fresh quadtree;
the second shows the fifth `Insert` exceeds every recursion depth — the
source recurses forever. -/
theorem C9_insert_same_point_diverges :
    ((insertF 1 (Quadtree.leaf ⟨0, 0, 4000, 4000⟩ 4 []) ⟨"f1", ⟨100, 100⟩, 5⟩).bind
      (fun r => (insertF 1 r.1 ⟨"f2", ⟨100, 100⟩, 5⟩).bind
        (fun r => (insertF 1 r.1 ⟨"f3", ⟨100, 100⟩, 5⟩).bind
          (fun r => insertF 1 r.1 ⟨"f4", ⟨100, 100⟩, 5⟩))) =
      some (Quadtree.leaf ⟨0, 0, 4000, 4000⟩ 4
        [⟨"f1", ⟨100, 100⟩, 5⟩, ⟨"f2", ⟨100, 100⟩, 5⟩,
         ⟨"f3", ⟨100, 100⟩, 5⟩, ⟨"f4", ⟨100, 100⟩, 5⟩], true)) ∧
    ∀ fuel : ℕ,
      insertF fuel (Quadtree.leaf ⟨0, 0, 4000, 4000⟩ 4
        [⟨"f1", ⟨100, 100⟩, 5⟩, ⟨"f2", ⟨100, 100⟩, 5⟩,
         ⟨"f3", ⟨100, 100⟩, 5⟩, ⟨"f4", ⟨100, 100⟩, 5⟩])
        ⟨"f5", ⟨100, 100⟩, 5⟩ = none := by
  constructor
  · norm_num [insertF, QRect.contains]
  · intro fuel
    exact insertF_same_point_none _ _ _ _ _ ⟨100, 100⟩ rfl rfl rfl rfl rfl fuel _
      (by norm_num [QRect.contains])

/-! ## C10: `QueryCircle` multiplicity -/

/-- Accumulator-free form of `queryCircle`: the list of entities a query
adds, in NW, NE, SW, SE order. -/
def qList : Quadtree → Vec2 → ℚ → List Ent
  | .leaf b _ ents, c, r =>
      if circleIntersectsRect c r b then
        ents.filter (fun e => distanceLe c e.pos (r + e.radius))
      else []
  | .node b _ nw ne sw se, c, r =>
      if circleIntersectsRect c r b then
        qList nw c r ++ qList ne c r ++ qList sw c r ++ qList se c r
      else []

theorem queryCircle_eq_qList (t : Quadtree) (c : Vec2) (r : ℚ)
    (found : List Ent) : queryCircle t c r found = found ++ qList t c r := by
  induction t generalizing found with
  | leaf b cap ents =>
      simp only [queryCircle, qList]
      split
      · rfl
      · simp
  | node b cap nw ne sw se ihnw ihne ihsw ihse =>
      simp only [queryCircle, qList]
      split
      · rw [ihnw, ihne, ihsw, ihse]
        simp [List.append_assoc]
      · simp

theorem qList_count_le_occ (t : Quadtree) (c : Vec2) (r : ℚ) (e : Ent) :
    (qList t c r).count e ≤ occCount e t := by
  induction t with
  | leaf b cap ents =>
      simp only [qList, occCount]
      split
      · exact List.Sublist.count_le (List.filter_sublist ents) e
      · simp
  | node b cap nw ne sw se ihnw ihne ihsw ihse =>
      simp only [qList, occCount]
      split
      · simp only [List.count_append]
        omega
      · simp

/-- **C10 (amended).** `QueryCircle` returns each entity at most as many
times as it is stored across the tree's node lists — not at most once per
inserted entity: `Subdivide` stores a boundary entity in several children
(see the counterexample), and the query then reports one hit per stored
copy. -/
theorem C10_query_multiplicity (t : Quadtree) (c : Vec2) (r : ℚ) (e : Ent) :
    (queryCircle t c r []).count e ≤ occCount e t := by
  rw [queryCircle_eq_qList]
  simpa using qList_count_le_occ t c r e

/-- The five-`Insert` build of the C10 counterexample: `"b"` sits on the
shared NW/NE boundary `x = 2000`; the fifth insert subdivides and stores
`"b"` in both the NW and the NE child. -/
def qtC10 : Option (Quadtree × Bool) :=
  (insertF 2 (Quadtree.leaf ⟨0, 0, 4000, 4000⟩ 4 []) ⟨"b", ⟨2000, 1000⟩, 5⟩).bind fun r1 =>
  (insertF 2 r1.1 ⟨"a1", ⟨1000, 1000⟩, 5⟩).bind fun r2 =>
  (insertF 2 r2.1 ⟨"a2", ⟨3000, 1000⟩, 5⟩).bind fun r3 =>
  (insertF 2 r3.1 ⟨"a3", ⟨1000, 3000⟩, 5⟩).bind fun r4 =>
  insertF 2 r4.1 ⟨"a4", ⟨3000, 3000⟩, 5⟩

/-- **C10 counterexample.** After five in-bounds `Insert` calls on a fresh
capacity-4 tree, a circle query centred on the boundary entity `"b"` reports
it twice: `Subdivide` re-inserted `"b"` into both the NW and the NE child
(the quadrant rectangles share the edge `x = 2000` and `Rect.Contains` is
edge-inclusive), and `QueryCircle` visits both children. -/
theorem C10_counterexample :
    qtC10.map
      (fun r => (queryCircle r.1 ⟨2000, 1000⟩ 10 []).count ⟨"b", ⟨2000, 1000⟩, 5⟩)
      = some 2 := by
  norm_num [qtC10, insertF, QRect.contains, subdivideWith, subdivideStep,
    tryChildrenWith, List.foldlM, nwRect, neRect, swRect, seRect,
    queryCircle, circleIntersectsRect, distanceLe, List.filter, List.count,
    List.countP, Option.bind]
  decide

/-! ## C6: the binary codec (`protocol.go` encoder vs the `connection.ts`
decoder)

Bytes are natural numbers below 256; a float's payload is carried as its
IEEE-754 bit pattern (`putFloat64`/`getFloat64` and
`appendFloat32`/`getFloat32` are mutually inverse on bit patterns, so the
codec is modelled at the bit level). -/

/-- `uint16(n)` written big-endian, as in `appendString`. -/
def u16Bytes (n : ℕ) : List ℕ := [n % 65536 / 256, n % 256]

/-- `appendUint32` (also `appendFloat32` on a 32-bit pattern). -/
def u32Bytes (u : ℕ) : List ℕ :=
  [u / 16777216 % 256, u / 65536 % 256, u / 256 % 256, u % 256]

/-- `putFloat64` on a 64-bit pattern. -/
def u64Bytes (u : ℕ) : List ℕ :=
  [u / 72057594037927936 % 256, u / 281474976710656 % 256,
   u / 1099511627776 % 256, u / 4294967296 % 256,
   u / 16777216 % 256, u / 65536 % 256, u / 256 % 256, u % 256]

/-- `appendString`: two length bytes (`uint16(len)`) then the raw bytes. -/
def appendString (buf s : List ℕ) : List ℕ := buf ++ u16Bytes s.length ++ s

/-- `WelcomePayload` of the encoder: id, name and model byte strings plus
the two world-dimension float64 bit patterns. -/
structure WelcomePayload where
  id : List ℕ
  name : List ℕ
  model : List ℕ
  worldWidthBits : ℕ
  worldHeightBits : ℕ
deriving DecidableEq, Repr

/-- `encodeWelcome`: tag 1, then id, name, model strings, then the two
world dimensions. -/
def encodeWelcome (p : WelcomePayload) : List ℕ :=
  appendString (appendString (appendString [1] p.id) p.name) p.model ++
    u64Bytes p.worldWidthBits ++ u64Bytes p.worldHeightBits

/-- `LeaderboardEntry`: a name and an (unsigned) score. -/
structure LBEntry where
  name : List ℕ
  score : ℕ
deriving DecidableEq, Repr

/-- `encodeLeaderboardEntry`: name string then `uint32(score)`. -/
def encodeLeaderboardEntry (e : LBEntry) : List ℕ :=
  u16Bytes e.name.length ++ e.name ++ u32Bytes (e.score % 4294967296)

/-- `encodeLeaderboard`: tag 4, one count byte (`byte(len(entries))`), then
the entries. -/
def encodeLeaderboard (entries : List LBEntry) : List ℕ :=
  4 :: entries.length % 256 :: (entries.map encodeLeaderboardEntry).flatten

/-- The outbound frames whose layouts the encoder and the decoder share;
`EncodeBinaryMessage` sends pong as the single byte `[3]`. -/
inductive OutMsg where
  | pong
  | leaderboard (entries : List LBEntry)
deriving DecidableEq, Repr

def encodeBinaryMessage : OutMsg → List ℕ
  | .pong => [3]
  | .leaderboard es => encodeLeaderboard es

/-- `DataView.getUint8` at the read cursor. -/
def readU8 : List ℕ → Option (ℕ × List ℕ)
  | b :: rest => some (b, rest)
  | _ => none

/-- `DataView.getUint16` (big-endian). -/
def readU16 : List ℕ → Option (ℕ × List ℕ)
  | b0 :: b1 :: rest => some (b0 * 256 + b1, rest)
  | _ => none

/-- `DataView.getUint32` (also `getFloat32` read as a bit pattern). -/
def readU32 : List ℕ → Option (ℕ × List ℕ)
  | b0 :: b1 :: b2 :: b3 :: rest =>
      some (((b0 * 256 + b1) * 256 + b2) * 256 + b3, rest)
  | _ => none

/-- `DataView.getFloat64` read as a 64-bit pattern. -/
def readU64 : List ℕ → Option (ℕ × List ℕ)
  | b0 :: b1 :: b2 :: b3 :: b4 :: b5 :: b6 :: b7 :: rest =>
      some ((((((((b0 * 256 + b1) * 256 + b2) * 256 + b3) * 256 + b4) * 256
        + b5) * 256 + b6) * 256 + b7), rest)
  | _ => none

/-- Taking `n` raw bytes (a `Uint8Array` slice; out of bounds throws). -/
def readBytes (n : ℕ) (l : List ℕ) : Option (List ℕ × List ℕ) :=
  if n ≤ l.length then some (l.take n, l.drop n) else none

/-- `readString` of the decoder: a `uint16` length then that many bytes. -/
def readString (l : List ℕ) : Option (List ℕ × List ℕ) :=
  (readU16 l).bind fun r => readBytes r.1 r.2

/-- What `decodeWelcome` produces: an id and the two world dimensions —
it reads no name and no model. -/
structure DWelcome where
  id : List ℕ
  worldWidthBits : ℕ
  worldHeightBits : ℕ
deriving DecidableEq, Repr

/-- `decodeWelcome` (bytes after the tag): id string, then two float64s. -/
def decodeWelcome (l : List ℕ) : Option (DWelcome × List ℕ) :=
  (readString l).bind fun ri =>
  (readU64 ri.2).bind fun rw =>
  (readU64 rw.2).map fun rh => (⟨ri.1, rw.1, rh.1⟩, rh.2)

/-- The player record `decodePlayerState` produces. -/
structure DPlayer where
  alive : Bool
  id : List ℕ
  name : List ℕ
  model : List ℕ
  x : ℕ
  y : ℕ
  velX : ℕ
  velY : ℕ
  rotation : ℕ
  size : ℕ
  score : ℕ
  seq : ℕ
  killedBy : Option (List ℕ)
  respawnIn : Option ℕ
deriving DecidableEq, Repr

/-- `decodePlayerState`: a flags byte (bit 0 alive, bit 1 killedBy, bit 2
respawnIn), then id, name and model strings, six float32s, two uint32s and
the optional fields. -/
def decodePlayerState (l : List ℕ) : Option (DPlayer × List ℕ) :=
  (readU8 l).bind fun rf =>
  (readString rf.2).bind fun rid =>
  (readString rid.2).bind fun rname =>
  (readString rname.2).bind fun rmodel =>
  (readU32 rmodel.2).bind fun rx =>
  (readU32 rx.2).bind fun ry =>
  (readU32 ry.2).bind fun rvx =>
  (readU32 rvx.2).bind fun rvy =>
  (readU32 rvy.2).bind fun rrot =>
  (readU32 rrot.2).bind fun rsz =>
  (readU32 rsz.2).bind fun rsc =>
  (readU32 rsc.2).bind fun rsq =>
  (if rf.1 / 2 % 2 = 1 then
    (readString rsq.2).map fun r => ((some r.1 : Option (List ℕ)), r.2)
   else some (none, rsq.2)).bind fun rkb =>
  (if rf.1 / 4 % 2 = 1 then
    (readU32 rkb.2).map fun r => ((some r.1 : Option ℕ), r.2)
   else some (none, rkb.2)).map fun rri =>
  (⟨decide (rf.1 % 2 = 1), rid.1, rname.1, rmodel.1, rx.1, ry.1, rvx.1,
    rvy.1, rrot.1, rsz.1, rsc.1, rsq.1, rkb.1, rri.1⟩, rri.2)

/-- The record `decodeOtherPlayer` produces. -/
structure DOther where
  id : List ℕ
  name : List ℕ
  model : List ℕ
  x : ℕ
  y : ℕ
  velX : ℕ
  velY : ℕ
  rotation : ℕ
  size : ℕ
deriving DecidableEq, Repr

/-- `decodeOtherPlayer`: id, name and model strings then six float32s. -/
def decodeOtherPlayer (l : List ℕ) : Option (DOther × List ℕ) :=
  (readString l).bind fun rid =>
  (readString rid.2).bind fun rname =>
  (readString rname.2).bind fun rmodel =>
  (readU32 rmodel.2).bind fun rx =>
  (readU32 rx.2).bind fun ry =>
  (readU32 ry.2).bind fun rvx =>
  (readU32 rvx.2).bind fun rvy =>
  (readU32 rvy.2).bind fun rrot =>
  (readU32 rrot.2).map fun rsz =>
  (⟨rid.1, rname.1, rmodel.1, rx.1, ry.1, rvx.1, rvy.1, rrot.1, rsz.1⟩, rsz.2)

/-- The record `decodeFoodState` produces. -/
structure DFood where
  id : ℕ
  x : ℕ
  y : ℕ
  r : ℕ
deriving DecidableEq, Repr

/-- `decodeFoodState`: a uint64 id then three float32s. -/
def decodeFoodState (l : List ℕ) : Option (DFood × List ℕ) :=
  (readU64 l).bind fun rid =>
  (readU32 rid.2).bind fun rx =>
  (readU32 rx.2).bind fun ry =>
  (readU32 ry.2).map fun rr =>
  (⟨rid.1, rx.1, ry.1, rr.1⟩, rr.2)

/-- `decodeLeaderboardEntry`: a name string then a uint32 score. -/
def decodeLeaderboardEntry (l : List ℕ) : Option (LBEntry × List ℕ) :=
  (readString l).bind fun rn =>
  (readU32 rn.2).map fun rs => (⟨rn.1, rs.1⟩, rs.2)

/-- A count-prefixed repetition of a reader (the decoder's `for` loops). -/
def readList {α : Type} (rd : List ℕ → Option (α × List ℕ)) :
    ℕ → List ℕ → Option (List α × List ℕ)
  | 0, l => some ([], l)
  | n+1, l =>
      (rd l).bind fun r =>
      (readList rd n r.2).map fun rs => (r.1 :: rs.1, rs.2)

/-- The state `decodeGameState` produces. -/
structure DGameState where
  you : DPlayer
  others : List DOther
  food : List DFood
  leaderboard : List LBEntry
deriving DecidableEq, Repr

/-- `decodeGameState` (bytes after the tag): the player, then uint16-counted
others, food and leaderboard sections. -/
def decodeGameState (l : List ℕ) : Option (DGameState × List ℕ) :=
  (decodePlayerState l).bind fun rp =>
  (readU16 rp.2).bind fun rn =>
  (readList decodeOtherPlayer rn.1 rn.2).bind fun ro =>
  (readU16 ro.2).bind fun rnf =>
  (readList decodeFoodState rnf.1 rnf.2).bind fun rf =>
  (readU16 rf.2).bind fun rnl =>
  (readList decodeLeaderboardEntry rnl.1 rnl.2).map fun rl =>
  (⟨rp.1, ro.1, rf.1, rl.1⟩, rl.2)

/-- `decodeLeaderboard` (bytes after the tag): one count byte then the
entries. -/
def decodeLeaderboard (l : List ℕ) : Option (List LBEntry × List ℕ) :=
  (readU8 l).bind fun rc => readList decodeLeaderboardEntry rc.1 rc.2

/-- The messages the client-side dispatch produces. -/
inductive Frame where
  | welcome (w : DWelcome)
  | state (s : DGameState)
  | pong
  | leaderboard (entries : List LBEntry)
deriving DecidableEq, Repr

/-- `handleBinaryMessage`: the batch loop over a buffer of concatenated
frames.  The fuel bounds the number of frames (each iteration consumes at
least the tag byte); an unknown tag stops the loop, keeping the frames
already dispatched; a read past the end of the buffer throws (`none`). -/
def handleBinaryMessage : ℕ → List ℕ → Option (List Frame)
  | _, [] => some []
  | 0, _ :: _ => none
  | fuel+1, t :: rest =>
      if t = 1 then
        (decodeWelcome rest).bind fun r =>
        (handleBinaryMessage fuel r.2).map fun fs => Frame.welcome r.1 :: fs
      else if t = 2 then
        (decodeGameState rest).bind fun r =>
        (handleBinaryMessage fuel r.2).map fun fs => Frame.state r.1 :: fs
      else if t = 3 then
        (handleBinaryMessage fuel rest).map fun fs => Frame.pong :: fs
      else if t = 4 then
        (decodeLeaderboard rest).bind fun r =>
        (handleBinaryMessage fuel r.2).map fun fs => Frame.leaderboard r.1 :: fs
      else some []

/-- The frame an outbound message should decode back to. -/
def outFrame : OutMsg → Frame
  | .pong => Frame.pong
  | .leaderboard es => Frame.leaderboard es

/-- A leaderboard entry the wire format can carry exactly. -/
def entryOK (e : LBEntry) : Prop :=
  e.name.length < 65536 ∧ e.score < 4294967296

instance (e : LBEntry) : Decidable (entryOK e) := by
  unfold entryOK
  infer_instance

def msgOK : OutMsg → Prop
  | .pong => True
  | .leaderboard es => es.length < 256 ∧ ∀ e ∈ es, entryOK e

instance : (m : OutMsg) → Decidable (msgOK m)
  | OutMsg.pong => isTrue trivial
  | OutMsg.leaderboard es => by
      have hrw : msgOK (OutMsg.leaderboard es) =
          (es.length < 256 ∧ ∀ e ∈ es, entryOK e) := rfl
      rw [hrw]
      infer_instance

theorem readBytes_exact (s rest : List ℕ) :
    readBytes s.length (s ++ rest) = some (s, rest) := by
  rw [readBytes, if_pos (by simp)]
  rw [List.take_left, List.drop_left]

theorem readString_encode (s rest : List ℕ) (h : s.length < 65536) :
    readString (u16Bytes s.length ++ s ++ rest) = some (s, rest) := by
  have hval : s.length % 65536 / 256 * 256 + s.length % 256 = s.length := by
    omega
  simp only [readString, u16Bytes, List.cons_append, List.nil_append,
    List.append_assoc, readU16, Option.some_bind]
  rw [hval]
  exact readBytes_exact s rest

theorem readU32_encode (u : ℕ) (rest : List ℕ) (h : u < 4294967296) :
    readU32 (u32Bytes u ++ rest) = some (u, rest) := by
  have hval : ((u / 16777216 % 256 * 256 + u / 65536 % 256) * 256
      + u / 256 % 256) * 256 + u % 256 = u := by omega
  simp only [u32Bytes, List.cons_append, List.nil_append, readU32]
  rw [hval]

theorem decodeLeaderboardEntry_encode (e : LBEntry) (rest : List ℕ)
    (h1 : e.name.length < 65536) (h2 : e.score < 4294967296) :
    decodeLeaderboardEntry (encodeLeaderboardEntry e ++ rest) =
      some (e, rest) := by
  rw [encodeLeaderboardEntry, decodeLeaderboardEntry, List.append_assoc]
  rw [readString_encode e.name _ h1]
  simp only [Option.some_bind]
  rw [Nat.mod_eq_of_lt h2, readU32_encode e.score rest h2]
  rfl

theorem readList_encode (es : List LBEntry) (rest : List ℕ)
    (h : ∀ e ∈ es, entryOK e) :
    readList decodeLeaderboardEntry es.length
      ((es.map encodeLeaderboardEntry).flatten ++ rest) = some (es, rest) := by
  induction es with
  | nil => simp [readList]
  | cons e es ih =>
      obtain ⟨h1, h2⟩ := h e (List.mem_cons_self e es)
      simp only [List.map_cons, List.flatten_cons, List.length_cons, readList]
      rw [List.append_assoc, decodeLeaderboardEntry_encode e _ h1 h2]
      simp only [Option.some_bind]
      rw [ih (fun x hx => h x (List.mem_cons_of_mem e hx))]
      rfl

/-- **C6 (amended).** Pong and leaderboard frames round-trip through the
binary codec, singly and in batches: for every list of pong/leaderboard
messages with at most 255 well-formed entries per leaderboard, decoding the
concatenation of their encodings yields exactly those frames in order.  The
welcome frame does **not** round-trip (see the counterexample): the cited
decoder reads id and then immediately the two float64 world dimensions,
while the encoder emits name and model strings in between; the state layouts
diverge the same way (the encoder omits id/name/model and appends a
powerups section the decoder reads as a leaderboard count). -/
theorem C6_pong_leaderboard_roundtrip (msgs : List OutMsg)
    (h : ∀ m ∈ msgs, msgOK m) :
    handleBinaryMessage msgs.length ((msgs.map encodeBinaryMessage).flatten) =
      some (msgs.map outFrame) := by
  induction msgs with
  | nil => rfl
  | cons m ms ih =>
      have hms : ∀ x ∈ ms, msgOK x := fun x hx => h x (List.mem_cons_of_mem m hx)
      cases m with
      | pong =>
          simp only [List.map_cons, List.flatten_cons, List.length_cons,
            encodeBinaryMessage, List.cons_append, List.nil_append, outFrame,
            handleBinaryMessage]
          rw [if_pos trivial]
          simp only [List.append_eq, List.nil_append]
          rw [ih hms]
          rfl
      | leaderboard es =>
          obtain ⟨hlen, hok⟩ := h _ (List.mem_cons_self _ ms)
          simp only [List.map_cons, List.flatten_cons, List.length_cons,
            encodeBinaryMessage, encodeLeaderboard, List.cons_append, outFrame,
            handleBinaryMessage]
          rw [if_pos trivial]
          simp only [List.append_eq, List.cons_append]
          rw [Nat.mod_eq_of_lt hlen]
          simp only [decodeLeaderboard, readU8, Option.some_bind]
          rw [readList_encode es _ hok]
          simp only [Option.some_bind]
          rw [ih hms]
          rfl

/-- The witness batch: pong, a one-entry leaderboard (`"al"`, score 10),
pong. -/
def msgsC6 : List OutMsg :=
  [OutMsg.pong, OutMsg.leaderboard [⟨[97, 108], 10⟩], OutMsg.pong]

theorem C6_pong_leaderboard_roundtrip_witness :
    (∀ m ∈ msgsC6, msgOK m) ∧
      handleBinaryMessage msgsC6.length
        ((msgsC6.map encodeBinaryMessage).flatten) = some (msgsC6.map outFrame) :=
  ⟨by decide, C6_pong_leaderboard_roundtrip msgsC6 (by decide)⟩

/-- The welcome payload of the counterexample: id `"a"`, name `"bb"`,
model `"c"`, world-dimension bit patterns 2 and 3. -/
def wC6 : WelcomePayload := ⟨[97], [98, 98], [99], 2, 3⟩

/-- **C6 counterexample.** Decoding the encoding of a welcome payload does
not yield the payload back: the decode succeeds (first conjunct) but the
decoder, which reads no name/model strings, consumes the name's length
prefix and bytes as the high bytes of `worldWidth`, so the decoded world
dimensions differ from the encoded ones. -/
theorem C6_counterexample :
    (handleBinaryMessage 2 (encodeWelcome wC6)).isSome = true ∧
      handleBinaryMessage 2 (encodeWelcome wC6) ≠
        some [Frame.welcome ⟨wC6.id, wC6.worldWidthBits, wC6.worldHeightBits⟩] := by
  decide

end Fishy
